import Mathlib

/-!
Verification of the miniroha ledger engine against its specification.

The TypeScript sources are shallowly embedded: the LevelDB key-value store
becomes an association list from string keys to typed values, the instruction
engine and block applier become pure state-passing functions, JavaScript
BigInt arithmetic on decimal strings becomes Nat arithmetic (every stored
amount is written via BigInt.toString and read via BigInt, a bijection with
the naturals), and JavaScript exceptions become Except results.  Date.now()
is passed in explicitly as a clock value.  The SHA-512 content hash and the
Ed25519 signature scheme are not computable here, so functions that depend on
them take the hash (or signature) as an explicit functional parameter.
-/

set_option linter.unusedVariables false

namespace Miniroha

/-! ## Data model (src/types/index.ts) -/

/-- Embeds the Domain record of src/types/index.ts. -/
structure Domain where
  id : String
  created_at : Nat
deriving DecidableEq, Repr

/-- Embeds the Account record of src/types/index.ts. -/
structure Account where
  id : String
  public_key : String
  roles : List String
  created_at : Nat
deriving DecidableEq, Repr

/-- Embeds the Asset record of src/types/index.ts. -/
structure Asset where
  id : String
  precision : Nat
  created_at : Nat
deriving DecidableEq, Repr

/-- Embeds the Balance record of src/types/index.ts.  The source stores the
amount as a decimal string handled with BigInt; the embedding uses the
corresponding natural number. -/
structure Balance where
  asset_id : String
  account_id : String
  amount : Nat
deriving DecidableEq, Repr

/-- Embeds the Role record of src/types/index.ts. -/
structure Role where
  id : String
  permissions : List String
deriving DecidableEq, Repr

/-- Embeds the Validator record of src/types/index.ts. -/
structure Validator where
  id : String
  public_key : String
deriving DecidableEq, Repr

/-- Embeds the Instruction union of src/types/index.ts (eight tagged
variants). -/
inductive Instruction where
  | registerDomain (id : String)
  | registerAccount (id : String) (public_key : String)
  | registerAsset (id : String) (precision : Nat)
  | mintAsset (asset_id : String) (account_id : String) (amount : String)
  | burnAsset (asset_id : String) (account_id : String) (amount : String)
  | transferAsset (asset_id : String) (src_account : String)
      (dest_account : String) (amount : String)
  | grantRole (role_id : String) (account_id : String)
  | revokeRole (role_id : String) (account_id : String)
deriving DecidableEq, Repr

/-- Embeds the Signature record of src/types/index.ts. -/
structure Signature where
  public_key : String
  signature : String
deriving DecidableEq, Repr

/-- Embeds the TransactionBody record of src/types/index.ts. -/
structure TransactionBody where
  chain_id : String
  signer_id : String
  nonce : Nat
  created_at : Nat
  instructions : List Instruction
deriving DecidableEq, Repr

/-- Embeds the Transaction record of src/types/index.ts. -/
structure Transaction where
  body : TransactionBody
  signature : Signature
deriving DecidableEq, Repr

/-- Embeds the BlockHeader record of src/types/index.ts (the optional
tx_root and state_root fields are unused in v1 and omitted). -/
structure BlockHeader where
  height : Nat
  prev_hash : String
  timestamp : Nat
deriving DecidableEq, Repr

/-- Embeds the Block record of src/types/index.ts. -/
structure Block where
  header : BlockHeader
  transactions : List Transaction
  proposer_id : String
  signature : Signature
deriving DecidableEq, Repr

/-! ## State store (src/state/index.ts)

The LevelDB store is a flat key-value map.  It is embedded as an association
list from string keys to a sum of the JSON value shapes the components
actually store.  Lookup takes the first binding; put overwrites; the batch
applies puts and deletes in order. -/

/-- Value shapes stored in the key-value store, one constructor per key
family of the persisted layout. -/
inductive Val where
  | domain (d : Domain)
  | account (a : Account)
  | asset (a : Asset)
  | balance (b : Balance)
  | role (r : Role)
  | roleList (rs : List String)
  | validator (v : Validator)
  | blockVal (b : Block)
  | txVal (t : Transaction)
  | strVal (s : String)
  | natVal (n : Nat)
  | genBalance (asset_id : String) (account_id : String) (amount : String)
deriving DecidableEq, Repr

/-- The key-value store: an association list keyed by strings.  A real
LevelDB store has unique keys; the well-formedness predicate storeWF states
that. -/
abbrev Store := List (String × Val)

/-- Point lookup (LevelDBStateStore.get, with notFound mapped to none). -/
def storeGet (st : Store) (k : String) : Option Val :=
  (st.find? (fun e => e.1 == k)).map (fun e => e.2)

/-- Point delete (LevelDBStateStore.del). -/
def storeDel (st : Store) (k : String) : Store :=
  st.filter (fun e => e.1 != k)

/-- Point write (LevelDBStateStore.put): overwrites the key. -/
def storePut (st : Store) (k : String) (v : Val) : Store :=
  (k, v) :: storeDel st k

/-- Well-formed store: keys are pairwise distinct, as in LevelDB. -/
def storeWF (st : Store) : Prop :=
  (st.map Prod.fst).Nodup

/-- One operation of an atomic write batch (LevelDBStateStore.batch). -/
inductive BatchOp where
  | put (key : String) (value : Val)
  | del (key : String)
deriving DecidableEq, Repr

/-- Applies a batch in order (LevelDBStateStore.batch).  The backing store
commits the whole batch atomically or not at all; the caller models a failed
commit by not applying the batch. -/
def storeBatch (st : Store) (ops : List BatchOp) : Store :=
  ops.foldl
    (fun s op =>
      match op with
      | .put k v => storePut s k v
      | .del k => storeDel s k)
    st

/-! Typed accessors of LevelDBStateStore.  Every component writes each key
family with a single value shape, so a shape mismatch behaves as absence. -/

/-- Typed lookup under domains/ (LevelDBStateStore.getDomain). -/
def getDomain (st : Store) (id : String) : Option Domain :=
  match storeGet st ("domains/" ++ id) with
  | some (.domain d) => some d
  | _ => none

/-- Typed lookup under accounts/ (LevelDBStateStore.getAccount). -/
def getAccount (st : Store) (id : String) : Option Account :=
  match storeGet st ("accounts/" ++ id) with
  | some (.account a) => some a
  | _ => none

/-- Typed lookup under assets/ (LevelDBStateStore.getAsset). -/
def getAsset (st : Store) (id : String) : Option Asset :=
  match storeGet st ("assets/" ++ id) with
  | some (.asset a) => some a
  | _ => none

/-- The composite key of a balance entry
(balances/asset_id/account_id). -/
def balanceKey (asset_id account_id : String) : String :=
  "balances/" ++ asset_id ++ "/" ++ account_id

/-- Typed lookup of a balance (LevelDBStateStore.getBalance). -/
def getBalance (st : Store) (asset_id account_id : String) : Option Balance :=
  match storeGet st (balanceKey asset_id account_id) with
  | some (.balance b) => some b
  | _ => none

/-- Typed lookup under roles/ (LevelDBStateStore.getRole). -/
def getRole (st : Store) (id : String) : Option Role :=
  match storeGet st ("roles/" ++ id) with
  | some (.role r) => some r
  | _ => none

/-- Typed lookup under account_roles/ with default empty list
(LevelDBStateStore.getAccountRoles). -/
def getAccountRoles (st : Store) (id : String) : List String :=
  match storeGet st ("account_roles/" ++ id) with
  | some (.roleList rs) => rs
  | _ => []

/-! ## Amount semantics (InstructionEngine.validateAmount) -/

/-- Errors thrown by the instruction engine (the source throws Error with a
message; only the kind matters here). -/
inductive ExecError where
  | alreadyExists (what : String)
  | notFound (what : String)
  | invalidAccountFormat (id : String)
  | invalidAssetFormat (id : String)
  | invalidPrecision
  | invalidAmountFormat (amount : String)
  | amountExceedsPrecision (amount : String)
  | noBalance (account_id : String) (asset_id : String)
  | insufficientBalance
deriving DecidableEq, Repr

/-- Decidable equality for Except results, so that closed facts about the
engine can be settled by evaluation. -/
instance {ε α : Type} [DecidableEq ε] [DecidableEq α] :
    DecidableEq (Except ε α)
  | .ok a, .ok b =>
    if h : a = b then .isTrue (congrArg Except.ok h)
    else .isFalse (fun hc => h (Except.ok.inj hc))
  | .ok _, .error _ => .isFalse (fun hc => Except.noConfusion hc)
  | .error _, .ok _ => .isFalse (fun hc => Except.noConfusion hc)
  | .error e, .error f =>
    if h : e = f then .isTrue (congrArg Except.error h)
    else .isFalse (fun hc => h (Except.error.inj hc))

/-- Worker for splitOnChar, accumulating the current segment reversed. -/
def splitOnCharAux (sep : Char) : List Char → List Char → List String
  | [], acc => [String.mk acc.reverse]
  | c :: cs, acc =>
    if c = sep then String.mk acc.reverse :: splitOnCharAux sep cs []
    else splitOnCharAux sep cs (c :: acc)

/-- Embeds String.prototype.split with a one-character separator: the
segments between occurrences of the separator, in order, empty segments
included; the empty string yields one empty segment. -/
def splitOnChar (sep : Char) (s : String) : List String :=
  splitOnCharAux sep s.data []

/-- Whether the first character list leads the second. -/
def charsLeadWith : List Char → List Char → Bool
  | [], _ => true
  | _ :: _, [] => false
  | a :: as, b :: bs => a == b && charsLeadWith as bs

/-- Whether p leads s (String.prototype.startsWith). -/
def strLeadsWith (p s : String) : Bool :=
  charsLeadWith p.data s.data

/-- Numeric value of one decimal digit character. -/
def digitVal (c : Char) : Nat := c.toNat - '0'.toNat

/-- Value of a list of decimal digit characters, most significant first
(what BigInt returns on a digit string). -/
def digitsToNat (cs : List Char) : Nat :=
  cs.foldl (fun acc c => 10 * acc + digitVal c) 0

/-- Value of a decimal digit string. -/
def strToNat (s : String) : Nat := digitsToNat s.data

/-- Nonempty all-digit string: one \d+ group of the amount regex. -/
def isDigitString (s : String) : Bool :=
  s.length > 0 && s.data.all Char.isDigit

/-- Embeds the amount regex test of the source.  A string matches exactly
when splitting on the dot yields one or two nonempty all-digit parts. -/
def amountFormatOk (s : String) : Bool :=
  match splitOnChar '.' s with
  | [w] => isDigitString w
  | [w, f] => isDigitString w && isDigitString f
  | _ => false

/-- Embeds String.prototype.padEnd with a pad character. -/
def padEnd (s : String) (n : Nat) (c : Char) : String :=
  s ++ String.mk (List.replicate (n - s.length) c)

/-- Embeds InstructionEngine.validateAmount: test the amount regex, reject a
fractional tail longer than the precision, right-pad the tail with zeros to
exactly the precision, and parse the concatenation as an integer. -/
def validateAmount (amount : String) (precision : Nat) : Except ExecError Nat :=
  if !amountFormatOk amount then .error (.invalidAmountFormat amount)
  else
    let parts := splitOnChar '.' amount
    let wholePart := parts.getD 0 ""
    let fractionalPart := parts.getD 1 ""
    if fractionalPart.length > precision then
      .error (.amountExceedsPrecision amount)
    else
      .ok (strToNat (wholePart ++ padEnd fractionalPart precision '0'))

/-! ## Instruction engine (src/instruction/index.ts)

Each handler mirrors its source method line by line.  The source issues its
writes immediately through the state store facade (putDomain, putBalance,
del, ...), not through a deferred batch, so each handler returns the
directly mutated store. -/

/-- Embeds InstructionEngine.handleRegisterDomain. -/
def handleRegisterDomain (st : Store) (now : Nat) (id : String) :
    Except ExecError Store :=
  if (getDomain st id).isSome then .error (.alreadyExists id)
  else .ok (storePut st ("domains/" ++ id) (.domain ⟨id, now⟩))

/-- Embeds InstructionEngine.handleRegisterAccount. -/
def handleRegisterAccount (st : Store) (now : Nat) (id public_key : String) :
    Except ExecError Store :=
  if (getAccount st id).isSome then .error (.alreadyExists id)
  else
    let parts := splitOnChar '@' id
    let name := parts.getD 0 ""
    let dom := parts.getD 1 ""
    if name = "" || dom = "" then .error (.invalidAccountFormat id)
    else if (getDomain st dom).isNone then .error (.notFound dom)
    else
      let st1 := storePut st ("accounts/" ++ id)
        (.account ⟨id, public_key, [], now⟩)
      .ok (storePut st1 ("account_roles/" ++ id) (.roleList []))

/-- Embeds InstructionEngine.handleRegisterAsset.  The precision is a Nat
here, so only the upper bound of the source range check can fail. -/
def handleRegisterAsset (st : Store) (now : Nat) (id : String)
    (precision : Nat) : Except ExecError Store :=
  if (getAsset st id).isSome then .error (.alreadyExists id)
  else
    let parts := splitOnChar '#' id
    let assetName := parts.getD 0 ""
    let dom := parts.getD 1 ""
    if assetName = "" || dom = "" then .error (.invalidAssetFormat id)
    else if (getDomain st dom).isNone then .error (.notFound dom)
    else if precision > 18 then .error .invalidPrecision
    else .ok (storePut st ("assets/" ++ id) (.asset ⟨id, precision, now⟩))

/-- Embeds InstructionEngine.handleMintAsset. -/
def handleMintAsset (st : Store) (asset_id account_id amount : String) :
    Except ExecError Store :=
  match getAsset st asset_id with
  | none => .error (.notFound asset_id)
  | some asset =>
    if (getAccount st account_id).isNone then .error (.notFound account_id)
    else
      match validateAmount amount asset.precision with
      | .error e => .error e
      | .ok amt =>
        let currentAmount :=
          match getBalance st asset_id account_id with
          | some b => b.amount
          | none => 0
        .ok (storePut st (balanceKey asset_id account_id)
          (.balance ⟨asset_id, account_id, currentAmount + amt⟩))

/-- Embeds InstructionEngine.handleBurnAsset. -/
def handleBurnAsset (st : Store) (asset_id account_id amount : String) :
    Except ExecError Store :=
  match getAsset st asset_id with
  | none => .error (.notFound asset_id)
  | some asset =>
    if (getAccount st account_id).isNone then .error (.notFound account_id)
    else
      match validateAmount amount asset.precision with
      | .error e => .error e
      | .ok amt =>
        match getBalance st asset_id account_id with
        | none => .error (.noBalance account_id asset_id)
        | some currentBalance =>
          if currentBalance.amount < amt then .error .insufficientBalance
          else
            let newAmount := currentBalance.amount - amt
            if newAmount = 0 then
              .ok (storeDel st (balanceKey asset_id account_id))
            else
              .ok (storePut st (balanceKey asset_id account_id)
                (.balance ⟨asset_id, account_id, newAmount⟩))

/-- Embeds InstructionEngine.handleTransferAsset.  The destination balance
is read after the source write, as in the source, which is what makes a
self-transfer read its own freshly written source balance. -/
def handleTransferAsset (st : Store)
    (asset_id src_account dest_account amount : String) :
    Except ExecError Store :=
  match getAsset st asset_id with
  | none => .error (.notFound asset_id)
  | some asset =>
    if (getAccount st src_account).isNone then .error (.notFound src_account)
    else if (getAccount st dest_account).isNone then
      .error (.notFound dest_account)
    else
      match validateAmount amount asset.precision with
      | .error e => .error e
      | .ok amt =>
        match getBalance st asset_id src_account with
        | none => .error (.noBalance src_account asset_id)
        | some srcBalance =>
          if srcBalance.amount < amt then .error .insufficientBalance
          else
            let newSrcAmount := srcBalance.amount - amt
            let st1 :=
              if newSrcAmount = 0 then
                storeDel st (balanceKey asset_id src_account)
              else
                storePut st (balanceKey asset_id src_account)
                  (.balance ⟨asset_id, src_account, newSrcAmount⟩)
            let destAmount :=
              match getBalance st1 asset_id dest_account with
              | some b => b.amount
              | none => 0
            .ok (storePut st1 (balanceKey asset_id dest_account)
              (.balance ⟨asset_id, dest_account, destAmount + amt⟩))

/-- Embeds InstructionEngine.handleGrantRole. -/
def handleGrantRole (st : Store) (role_id account_id : String) :
    Except ExecError Store :=
  if (getRole st role_id).isNone then .error (.notFound role_id)
  else if (getAccount st account_id).isNone then .error (.notFound account_id)
  else
    let currentRoles := getAccountRoles st account_id
    if currentRoles.contains role_id then .ok st
    else
      .ok (storePut st ("account_roles/" ++ account_id)
        (.roleList (currentRoles ++ [role_id])))

/-- Embeds InstructionEngine.handleRevokeRole. -/
def handleRevokeRole (st : Store) (role_id account_id : String) :
    Except ExecError Store :=
  if (getAccount st account_id).isNone then .error (.notFound account_id)
  else
    let currentRoles := getAccountRoles st account_id
    if currentRoles.contains role_id then
      .ok (storePut st ("account_roles/" ++ account_id)
        (.roleList (currentRoles.filter (fun r => r != role_id))))
    else .ok st

/-- Embeds InstructionEngine.execute: exhaustive dispatch on the instruction
tag.  The signer is threaded but, as in the source handlers, unused. -/
def execute (st : Store) (now : Nat) (instr : Instruction)
    (signerId : String) : Except ExecError Store :=
  match instr with
  | .registerDomain id => handleRegisterDomain st now id
  | .registerAccount id pk => handleRegisterAccount st now id pk
  | .registerAsset id precision => handleRegisterAsset st now id precision
  | .mintAsset a c m => handleMintAsset st a c m
  | .burnAsset a c m => handleBurnAsset st a c m
  | .transferAsset a s d m => handleTransferAsset st a s d m
  | .grantRole r a => handleGrantRole st r a
  | .revokeRole r a => handleRevokeRole st r a

/-! ## Block applier (BlockProducer.applyBlock, src/block/index.ts)

The source gathers the block record, the blocks_by_hash entry, one txs/ entry
per transaction and the last_height update into a batch, but the instruction
effects happen through InstructionEngine.execute, whose handlers write
directly to the store.  An instruction failure raises out of applyBlock: the
direct writes made so far stay, the batch is never applied, and later
transactions never run.  The embedding threads the directly mutated store and
the accumulated batch explicitly, and flags the first instruction error.
The content hash is not computable here, so the block header hash and the
transaction hash are functional parameters. -/

/-- Runs one transaction's instruction list in order against the store
(the inner loop of applyBlock).  On the first failing instruction the store
mutated by the earlier instructions is returned together with the error. -/
def runInstructions (now : Nat) (signerId : String) :
    Store → List Instruction → Store × Option ExecError
  | st, [] => (st, none)
  | st, i :: rest =>
    match execute st now i signerId with
    | .ok st1 => runInstructions now signerId st1 rest
    | .error e => (st, some e)

/-- Runs the transaction loop of applyBlock: pushes the txs/ batch entry,
then executes the instructions (which write directly to the store).  An
instruction failure propagates immediately, skipping later transactions. -/
def runBlockTxs (txHash : Transaction → String) (now : Nat) :
    Store → List BatchOp → List Transaction →
    Store × List BatchOp × Option ExecError
  | st, ops, [] => (st, ops, none)
  | st, ops, tx :: rest =>
    let ops1 := ops ++ [BatchOp.put ("txs/" ++ txHash tx) (.txVal tx)]
    match runInstructions now tx.body.signer_id st tx.body.instructions with
    | (st1, none) => runBlockTxs txHash now st1 ops1 rest
    | (st1, some e) => (st1, ops1, some e)

/-- Embeds BlockProducer.applyBlock up to the batch commit: returns the
store as mutated by the engine's direct writes, the assembled batch, and
the first instruction error if any. -/
def applyBlockRun (hashHeader : BlockHeader → String)
    (txHash : Transaction → String) (now : Nat) (st : Store) (b : Block) :
    Store × List BatchOp × Option ExecError :=
  let ops0 : List BatchOp :=
    [BatchOp.put ("blocks/" ++ toString b.header.height) (.blockVal b),
     BatchOp.put ("blocks_by_hash/" ++ hashHeader b.header)
       (.natVal b.header.height)]
  match runBlockTxs txHash now st ops0 b.transactions with
  | (st1, ops1, none) =>
    (st1, ops1 ++ [BatchOp.put "last_height" (.natVal b.header.height)], none)
  | (st1, ops1, some e) => (st1, ops1, some e)

/-- The store observable after BlockProducer.applyBlock.  commitOk models
whether the final stateStore.batch call succeeds: the batch itself is atomic
at the store level, so on failure none of the batched operations land, but
the engine's direct writes are already in place either way.  When an
instruction failed, the batch call is never reached. -/
def applyBlock (hashHeader : BlockHeader → String)
    (txHash : Transaction → String) (now : Nat) (commitOk : Bool)
    (st : Store) (b : Block) : Store × Option ExecError :=
  match applyBlockRun hashHeader txHash now st b with
  | (st1, ops, none) => (if commitOk then storeBatch st1 ops else st1, none)
  | (st1, _, some e) => (st1, some e)

/-! ## BFT consensus vote counting (src/consensus/index.ts) -/

/-- Embeds the Vote record of src/types/index.ts; block_hash none is a nil
vote. -/
structure Vote where
  block_hash : Option String
  height : Nat
  round : Nat
  voter_id : String
  signature : Signature
deriving DecidableEq, Repr

/-- Embeds the ConsensusStep union of src/consensus/index.ts. -/
inductive ConsensusStep where
  | propose
  | prevote
  | precommit
  | commit
deriving DecidableEq, Repr

/-- Embeds the consensus-relevant local state: height, round, step, the
valid/locked block bookkeeping and the per-round vote maps (keyed by
validator id). -/
structure ConsensusState where
  height : Nat
  round : Nat
  step : ConsensusStep
  lockedBlock : Option Block
  lockedRound : Option Nat
  validBlock : Option Block
  validRound : Option Nat
  prevotes : List (String × Vote)
  precommits : List (String × Vote)
deriving DecidableEq, Repr

/-- Embeds BFTConsensus.getQuorumSize: 2f+1 with f = floor((n-1)/3).  For
n = 0 the JavaScript floor of a negative quotient differs from Nat
truncation, but the engine always runs with at least one validator. -/
def getQuorumSize (n : Nat) : Nat :=
  2 * ((n - 1) / 3) + 1

/-- Embeds BFTConsensus.hasQuorum: counts the votes matching the given
block hash, except that an absent argument hash counts every vote. -/
def hasQuorum (n : Nat) (votes : List (String × Vote))
    (blockHash : Option String) : Bool :=
  let count :=
    (votes.filter (fun e =>
      match blockHash with
      | none => true
      | some h => e.2.block_hash == some h)).length
  getQuorumSize n ≤ count

/-- Number of recorded nil prevotes (votes whose block_hash is absent);
what the specification's nil-quorum rule counts. -/
def nilVoteCount (votes : List (String × Vote)) : Nat :=
  (votes.filter (fun e => e.2.block_hash == none)).length

/-- The nil fall-through of BFTConsensus.checkPrevoteQuorum: on quorum,
move to precommit and emit a nil precommit. -/
def prevoteNilCheck (n : Nat) (cs : ConsensusState) :
    ConsensusState × Option (Option String) :=
  if hasQuorum n cs.prevotes none then
    ({ cs with step := ConsensusStep.precommit }, some none)
  else (cs, none)

/-- Embeds BFTConsensus.checkPrevoteQuorum as a transition on the local
state.  The second component reports the precommit emitted, if any: some
(some h) is a precommit for block hash h, some none a nil precommit.  The
emitted vote is what the precommit method then records and broadcasts. -/
def checkPrevoteQuorum (hashHeader : BlockHeader → String) (n : Nat)
    (cs : ConsensusState) : ConsensusState × Option (Option String) :=
  if cs.step ≠ ConsensusStep.prevote then (cs, none)
  else
    match cs.validBlock with
    | some vb =>
      let bh := hashHeader vb.header
      if hasQuorum n cs.prevotes (some bh) then
        ({ cs with
            lockedBlock := some vb,
            lockedRound := some cs.round,
            step := ConsensusStep.precommit }, some (some bh))
      else prevoteNilCheck n cs
    | none => prevoteNilCheck n cs

/-! ## Transaction validator nonce check (src/transaction/index.ts) -/

/-- Embeds the ValidationError record of src/types/index.ts (the details
field is unused by the nonce check). -/
structure ValidationErr where
  code : String
  message : String
deriving DecidableEq, Repr

/-- The last nonce seen per signer: the in-memory lastNonces map of
TransactionValidator, absent signers defaulting to 0. -/
def lastSeenNonce (lastNonces : List (String × Nat)) (signer : String) :
    Nat :=
  ((lastNonces.find? (fun e => e.1 == signer)).map (fun e => e.2)).getD 0

/-- Embeds TransactionValidator.validateNonce: reject with INVALID_NONCE
unless the nonce strictly exceeds the last seen nonce for the signer. -/
def validateNonce (lastNonces : List (String × Nat))
    (body : TransactionBody) : Option ValidationErr :=
  let lastNonce := lastSeenNonce lastNonces body.signer_id
  if body.nonce ≤ lastNonce then
    some ⟨"INVALID_NONCE", "Nonce must be greater than last nonce"⟩
  else none

/-- Embeds TransactionValidator.updateLastNonce, the map write performed
after a transaction is processed; this is how the last seen nonce carries
across blocks within a run. -/
def updateLastNonce (lastNonces : List (String × Nat))
    (signer : String) (nonce : Nat) : List (String × Nat) :=
  (signer, nonce) :: lastNonces.filter (fun e => e.1 != signer)

/-! ## Canonical JSON serialization (src/crypto/index.ts)

canonicalJsonStringify(obj) is JSON.stringify(obj, Object.keys(obj).sort()).
Per ECMA-262, an array second argument is a property list: at EVERY nesting
level, only the properties named in that list are serialized, in the order
of the list.  The list here is the top-level object's own keys, sorted by
the default comparator (code-unit ascending).  Arrays are serialized
element by element in order, ignoring the property list.  The embedding
models the JSON values involved and that replacer semantics.  String
escaping covers the quote and backslash characters; the identifiers
serialized by the engine contain no control characters. -/

/-- JSON value tree. -/
inductive Json where
  | null
  | bool (b : Bool)
  | num (n : Int)
  | str (s : String)
  | arr (elems : List Json)
  | obj (fields : List (String × Json))
deriving Repr

/-- Escape of one character inside a JSON string literal. -/
def escapeChar (c : Char) : String :=
  if c = '"' then "\\\""
  else if c = '\\' then "\\\\"
  else String.mk [c]

/-- A JSON string literal. -/
def jsonQuote (s : String) : String :=
  "\"" ++ String.join (s.data.map escapeChar) ++ "\""

/-- First binding for a key in a rendered field list. -/
def lookupStr (fields : List (String × String)) (k : String) :
    Option String :=
  (fields.find? (fun e => e.1 == k)).map (fun e => e.2)

/-- Renders an object body from a property list K and the pre-rendered
fields: for each name in K that the object owns, emit quoted key, colon,
rendered value; names the object does not own are skipped, and object keys
outside K are dropped.  This is SerializeJSONObject with a PropertyList. -/
def selectFields (K : List String) (rendered : List (String × String)) :
    List String :=
  K.filterMap (fun k =>
    (lookupStr rendered k).map (fun sv => jsonQuote k ++ ":" ++ sv))

mutual

/-- Embeds JSON.stringify with an array replacer K (the property list). -/
def serializeJsonWith (K : List String) : Json → String
  | .null => "null"
  | .bool b => if b then "true" else "false"
  | .num n => toString n
  | .str s => jsonQuote s
  | .arr elems =>
    "[" ++ String.intercalate "," (serializeElems K elems) ++ "]"
  | .obj fields =>
    "\x7b" ++ String.intercalate ","
      (selectFields K (serializeFields K fields)) ++ "\x7d"
termination_by structural j => j

/-- Array elements rendered in source order (SerializeJSONArray ignores the
property list). -/
def serializeElems (K : List String) : List Json → List String
  | [] => []
  | x :: xs => serializeJsonWith K x :: serializeElems K xs
termination_by structural xs => xs

/-- Every field rendered with its key (filtering to K happens in
selectFields, which also fixes the emission order). -/
def serializeFields (K : List String) :
    List (String × Json) → List (String × String)
  | [] => []
  | (k, v) :: fs => (k, serializeJsonWith K v) :: serializeFields K fs
termination_by structural fs => fs

end

/-- Embeds Object.keys: own enumerable property names; for an array these
are the element indices as decimal strings. -/
def Json.keys : Json → List String
  | .obj fields => fields.map Prod.fst
  | .arr elems => (List.range elems.length).map (fun i => toString i)
  | _ => []

/-- Lexicographic comparison of character lists by code point, the default
Array.prototype.sort comparator on the strings at hand (ASCII keys make the
code-point and code-unit orders agree). -/
def lexLe : List Char → List Char → Bool
  | [], _ => true
  | _ :: _, [] => false
  | a :: as, b :: bs =>
    if a < b then true
    else if b < a then false
    else lexLe as bs

/-- Lexicographic order on key names. -/
def keyLe (a b : String) : Prop :=
  lexLe a.data b.data = true

instance : DecidableRel keyLe := fun a b =>
  inferInstanceAs (Decidable (lexLe a.data b.data = true))

instance : IsTotal String keyLe where
  total a b := by
    suffices h : ∀ as bs : List Char,
        lexLe as bs = true ∨ lexLe bs as = true from h a.data b.data
    intro as
    induction as with
    | nil => intro bs; exact Or.inl rfl
    | cons x xs ih =>
      intro bs
      cases bs with
      | nil => exact Or.inr rfl
      | cons y ys =>
        simp only [lexLe]
        rcases lt_trichotomy x y with h | h | h
        · simp [h]
        · subst h
          simp only [lt_irrefl, if_false]
          exact ih ys
        · simp [h, not_lt_of_gt h]

instance : IsTrans String keyLe where
  trans a b c hab hbc := by
    suffices h : ∀ as bs cs : List Char, lexLe as bs = true →
        lexLe bs cs = true → lexLe as cs = true from
      h a.data b.data c.data hab hbc
    intro as
    induction as with
    | nil => intro bs cs _ _; rfl
    | cons x xs ih =>
      intro bs cs hab hbc
      cases bs with
      | nil => simp [lexLe] at hab
      | cons y ys =>
        cases cs with
        | nil => simp [lexLe] at hbc
        | cons z zs =>
          simp only [lexLe] at hab hbc ⊢
          by_cases hxy : x < y
          · by_cases hyz : y < z
            · simp [lt_trans hxy hyz]
            · by_cases hzy : z < y
              · simp [hyz, hzy] at hbc
              · have hyzEq : y = z := le_antisymm (not_lt.mp hzy) (not_lt.mp hyz)
                subst hyzEq
                simp [hxy]
          · by_cases hyx : y < x
            · simp [hxy, hyx] at hab
            · have hxyEq : x = y := le_antisymm (not_lt.mp hyx) (not_lt.mp hxy)
              subst hxyEq
              simp only [hxy, lt_irrefl, if_false] at hab ⊢
              by_cases hyz : x < z
              · simp [hyz]
              · by_cases hzy : z < x
                · simp [hyz, hzy] at hbc
                · simp only [hyz, hzy, if_false] at hbc ⊢
                  exact ih ys zs hab hbc

instance : IsAntisymm String keyLe where
  antisymm a b hab hba := by
    obtain ⟨da⟩ := a
    obtain ⟨db⟩ := b
    have h2 : ∀ as bs : List Char,
        lexLe as bs = true → lexLe bs as = true → as = bs := by
      intro as
      induction as with
      | nil =>
        intro bs hab2 hba2
        cases bs with
        | nil => rfl
        | cons y ys => simp [lexLe] at hba2
      | cons x xs ih =>
        intro bs hab2 hba2
        cases bs with
        | nil => simp [lexLe] at hab2
        | cons y ys =>
          simp only [lexLe] at hab2 hba2
          by_cases hxy : x < y
          · simp [not_lt_of_gt hxy, hxy] at hba2
          · by_cases hyx : y < x
            · simp [hxy, hyx] at hab2
            · have hxyEq : x = y := le_antisymm (not_lt.mp hyx) (not_lt.mp hxy)
              subst hxyEq
              simp only [lt_irrefl, if_false] at hab2 hba2
              rw [ih ys hab2 hba2]
    exact congrArg String.mk (h2 da db hab hba)

/-- Ascending sort of key names: Object.keys(obj).sort(). -/
def sortKeys (ks : List String) : List String :=
  List.insertionSort keyLe ks

/-- Embeds canonicalJsonStringify of src/crypto/index.ts:
JSON.stringify(obj, Object.keys(obj).sort()). -/
def canonicalJsonStringify (j : Json) : String :=
  serializeJsonWith (sortKeys (Json.keys j)) j

mutual

/-- Written from the specification's words, for comparison with the source
definition: JSON text in which every object's keys appear in ascending
lexicographic order at every level, arrays preserve source order, scalars
standard. -/
def specCanonicalJson : Json → String
  | .null => "null"
  | .bool b => if b then "true" else "false"
  | .num n => toString n
  | .str s => jsonQuote s
  | .arr elems =>
    "[" ++ String.intercalate "," (specCanonicalElems elems) ++ "]"
  | .obj fields =>
    "\x7b" ++ String.intercalate ","
      (selectFields (sortKeys (fields.map Prod.fst))
        (specCanonicalFields fields)) ++ "\x7d"
termination_by structural j => j

/-- Array elements of the specification serializer, in source order. -/
def specCanonicalElems : List Json → List String
  | [] => []
  | x :: xs => specCanonicalJson x :: specCanonicalElems xs
termination_by structural xs => xs

/-- Rendered fields of the specification serializer. -/
def specCanonicalFields : List (String × Json) → List (String × String)
  | [] => []
  | (k, v) :: fs => (k, specCanonicalJson v) :: specCanonicalFields fs
termination_by structural fs => fs

end

/-- Whether a JSON value is a scalar (no nested container). -/
def Json.isScalar : Json → Bool
  | .null => true
  | .bool _ => true
  | .num _ => true
  | .str _ => true
  | .arr _ => false
  | .obj _ => false

/-- Inserts a field into a key-sorted field list, keeping key order. -/
def insertPairByKey (e : String × Json) :
    List (String × Json) → List (String × Json)
  | [] => [e]
  | f :: fs =>
    if keyLe e.1 f.1 then e :: f :: fs else f :: insertPairByKey e fs

/-- Sorts a field list by key. -/
def sortPairsByKey : List (String × Json) → List (String × Json)
  | [] => []
  | e :: fs => insertPairByKey e (sortPairsByKey fs)

mutual

/-- Observational normal form of a JSON value: every object's field list
sorted by key, recursively; two JSON values are observably equal exactly
when they have the same normal form. -/
def normalizeJson : Json → Json
  | .null => .null
  | .bool b => .bool b
  | .num n => .num n
  | .str s => .str s
  | .arr xs => .arr (normalizeElems xs)
  | .obj kvs => .obj (sortPairsByKey (normalizeFields kvs))
termination_by structural j => j

/-- Normal forms of array elements, in order. -/
def normalizeElems : List Json → List Json
  | [] => []
  | x :: xs => normalizeJson x :: normalizeElems xs
termination_by structural xs => xs

/-- Normal forms of field values, keys and order untouched. -/
def normalizeFields : List (String × Json) → List (String × Json)
  | [] => []
  | (k, v) :: fs => (k, normalizeJson v) :: normalizeFields fs
termination_by structural fs => fs

end

/-- Pairwise-distinct key names. -/
def distinctKeys : List String → Bool
  | [] => true
  | k :: ks => !(ks.contains k) && distinctKeys ks

mutual

/-- Every object of the tree has pairwise-distinct keys, which is what
makes a JSON value an object (a key-value map) at every level. -/
def Json.wellKeyed : Json → Bool
  | .null => true
  | .bool _ => true
  | .num _ => true
  | .str _ => true
  | .arr xs => wellKeyedElems xs
  | .obj kvs => distinctKeys (kvs.map Prod.fst) && wellKeyedFields kvs
termination_by structural j => j

/-- Well-keyedness of array elements. -/
def wellKeyedElems : List Json → Bool
  | [] => true
  | x :: xs => Json.wellKeyed x && wellKeyedElems xs
termination_by structural xs => xs

/-- Well-keyedness of field values. -/
def wellKeyedFields : List (String × Json) → Bool
  | [] => true
  | (k, v) :: fs => Json.wellKeyed v && wellKeyedFields fs
termination_by structural fs => fs

end

/-! ## Genesis bootstrap (src/genesis/index.ts)

GenesisBootstrap.bootstrap validates the config, assembles one batch with
every entity, the genesis block, chain_id and last_height, and commits it.
Genesis balances are stored verbatim from the config, amount string
included (which may carry a decimal point, a shape the engine itself never
writes), so the config balance record keeps its string amount here. -/

/-- A balance entry of the genesis config: amount still a raw decimal
string. -/
structure GenesisBalance where
  asset_id : String
  account_id : String
  amount : String
deriving DecidableEq, Repr

/-- The genesis section of the config. -/
structure GenesisSection where
  domains : List Domain
  accounts : List Account
  assets : List Asset
  balances : List GenesisBalance
  roles : List Role
  validators : List Validator
deriving DecidableEq, Repr

/-- Embeds the GenesisConfig record of src/types/index.ts. -/
structure GenesisConfig where
  chain_id : String
  genesis : GenesisSection
deriving DecidableEq, Repr

/-- Validation errors thrown by GenesisBootstrap.validateGenesisConfig (the
source throws Error with a message; the constructor records the kind). -/
inductive GenesisErr where
  | missingChainId
  | domainMissingId
  | dupDomainId (id : String)
  | accountMissingId
  | dupAccountId (id : String)
  | badAccountFormat (id : String)
  | accountDomainMissing (id : String) (dom : String)
  | accountMissingKey (id : String)
  | roleMissingId
  | dupRoleId (id : String)
  | assetMissingId
  | dupAssetId (id : String)
  | badAssetFormat (id : String)
  | assetDomainMissing (id : String) (dom : String)
  | badPrecision (id : String)
  | balanceMissingAsset
  | balanceMissingAccount
  | balanceMissingAmount
  | balanceAssetMissing (id : String)
  | balanceAccountMissing (id : String)
  | badBalanceAmount (amount : String)
  | accountRoleMissing (id : String) (role : String)
  | validatorMissingId
  | dupValidatorId (id : String)
  | validatorMissingKey (id : String)
  | noValidators
  | noAdminRole
  | noAdminAccount
deriving DecidableEq, Repr

/-- The domains loop of validateGenesisConfig: id present and no
duplicates. -/
def checkDomains : List Domain → List String → Option GenesisErr
  | [], _ => none
  | d :: rest, seen =>
    if d.id = "" then some .domainMissingId
    else if seen.contains d.id then some (.dupDomainId d.id)
    else checkDomains rest (d.id :: seen)

/-- The accounts loop of validateGenesisConfig: id present and unique,
name-at-domain format, domain declared in the config, public key present
(the roles-is-an-array check always holds in the typed embedding). -/
def checkAccounts (domainIds : List String) :
    List Account → List String → Option GenesisErr
  | [], _ => none
  | a :: rest, seen =>
    if a.id = "" then some .accountMissingId
    else if seen.contains a.id then some (.dupAccountId a.id)
    else
      let parts := splitOnChar '@' a.id
      let name := parts.getD 0 ""
      let dom := parts.getD 1 ""
      if name = "" || dom = "" then some (.badAccountFormat a.id)
      else if !domainIds.contains dom then
        some (.accountDomainMissing a.id dom)
      else if a.public_key = "" then some (.accountMissingKey a.id)
      else checkAccounts domainIds rest (a.id :: seen)

/-- The roles loop of validateGenesisConfig: id present and unique (the
permissions-is-an-array check always holds in the typed embedding). -/
def checkRoles : List Role → List String → Option GenesisErr
  | [], _ => none
  | r :: rest, seen =>
    if r.id = "" then some .roleMissingId
    else if seen.contains r.id then some (.dupRoleId r.id)
    else checkRoles rest (r.id :: seen)

/-- The assets loop of validateGenesisConfig: id present and unique,
symbol-hash-domain format, domain declared, precision within range (the
lower bound holds by the Nat embedding). -/
def checkAssets (domainIds : List String) :
    List Asset → List String → Option GenesisErr
  | [], _ => none
  | a :: rest, seen =>
    if a.id = "" then some .assetMissingId
    else if seen.contains a.id then some (.dupAssetId a.id)
    else
      let parts := splitOnChar '#' a.id
      let assetName := parts.getD 0 ""
      let dom := parts.getD 1 ""
      if assetName = "" || dom = "" then some (.badAssetFormat a.id)
      else if !domainIds.contains dom then
        some (.assetDomainMissing a.id dom)
      else if a.precision > 18 then some (.badPrecision a.id)
      else checkAssets domainIds rest (a.id :: seen)

/-- The balances loop of validateGenesisConfig. -/
def checkBalances (assetIds accountIds : List String) :
    List GenesisBalance → Option GenesisErr
  | [] => none
  | b :: rest =>
    if b.asset_id = "" then some .balanceMissingAsset
    else if b.account_id = "" then some .balanceMissingAccount
    else if b.amount = "" then some .balanceMissingAmount
    else if !assetIds.contains b.asset_id then
      some (.balanceAssetMissing b.asset_id)
    else if !accountIds.contains b.account_id then
      some (.balanceAccountMissing b.account_id)
    else if !amountFormatOk b.amount then some (.badBalanceAmount b.amount)
    else checkBalances assetIds accountIds rest

/-- The account-role reference loop of validateGenesisConfig. -/
def checkAccountRoleRefs (roleIds : List String) :
    List Account → Option GenesisErr
  | [] => none
  | a :: rest =>
    match a.roles.find? (fun r => !roleIds.contains r) with
    | some r => some (.accountRoleMissing a.id r)
    | none => checkAccountRoleRefs roleIds rest

/-- The validators loop of validateGenesisConfig. -/
def checkValidators : List Validator → List String → Option GenesisErr
  | [], _ => none
  | v :: rest, seen =>
    if v.id = "" then some .validatorMissingId
    else if seen.contains v.id then some (.dupValidatorId v.id)
    else if v.public_key = "" then some (.validatorMissingKey v.id)
    else checkValidators rest (v.id :: seen)

/-- Embeds GenesisBootstrap.validateGenesisConfig, the checks in source
order.  The admin-role check only compares the role id against the literal
admin; the role's permission list is not inspected. -/
def validateGenesisConfig (cfg : GenesisConfig) : Option GenesisErr :=
  if cfg.chain_id = "" then some .missingChainId
  else
    let g := cfg.genesis
    (checkDomains g.domains []) <|>
    (checkAccounts (g.domains.map (fun d => d.id)) g.accounts []) <|>
    (checkRoles g.roles []) <|>
    (checkAssets (g.domains.map (fun d => d.id)) g.assets []) <|>
    (checkBalances (g.assets.map (fun a => a.id))
      (g.accounts.map (fun a => a.id)) g.balances) <|>
    (checkAccountRoleRefs (g.roles.map (fun r => r.id)) g.accounts) <|>
    (checkValidators g.validators []) <|>
    (if g.validators.length = 0 then some .noValidators else none) <|>
    (if g.roles.any (fun r => r.id == "admin") then none
     else some .noAdminRole) <|>
    (if g.accounts.any (fun a => a.roles.contains "admin") then none
     else some .noAdminAccount)

/-- Embeds BlockProducer.createGenesisBlock: height 1, empty prev hash,
empty transactions, proposer genesis; the Ed25519 signature is passed in. -/
def createGenesisBlock (sig : Signature) (now : Nat) : Block :=
  ⟨⟨1, "", now⟩, [], "genesis", sig⟩

/-- The batch assembled by GenesisBootstrap.bootstrap, in source order:
domains, accounts (with account_roles when nonempty), assets, balances
(verbatim config records), roles, validators, chain_id, the genesis block
under blocks/1 and blocks_by_hash, and last_height. -/
def genesisOps (cfg : GenesisConfig) (headerHash : BlockHeader → String)
    (sig : Signature) (now : Nat) : List BatchOp :=
  let g := cfg.genesis
  let gb := createGenesisBlock sig now
  (g.domains.map (fun d => BatchOp.put ("domains/" ++ d.id) (.domain d))) ++
  (g.accounts.flatMap (fun a =>
    BatchOp.put ("accounts/" ++ a.id) (.account a) ::
    (if a.roles.length > 0 then
      [BatchOp.put ("account_roles/" ++ a.id) (.roleList a.roles)]
     else []))) ++
  (g.assets.map (fun a => BatchOp.put ("assets/" ++ a.id) (.asset a))) ++
  (g.balances.map (fun b =>
    BatchOp.put (balanceKey b.asset_id b.account_id)
      (.genBalance b.asset_id b.account_id b.amount))) ++
  (g.roles.map (fun r => BatchOp.put ("roles/" ++ r.id) (.role r))) ++
  (g.validators.map (fun v =>
    BatchOp.put ("validators/" ++ v.id) (.validator v))) ++
  [BatchOp.put "chain_id" (.strVal cfg.chain_id),
   BatchOp.put ("blocks/" ++ toString gb.header.height) (.blockVal gb),
   BatchOp.put ("blocks_by_hash/" ++ headerHash gb.header)
     (.natVal gb.header.height),
   BatchOp.put "last_height" (.natVal gb.header.height)]

/-- Embeds GenesisBootstrap.bootstrap: validate, then commit the single
batch; a validation error propagates before anything is written. -/
def bootstrap (cfg : GenesisConfig) (headerHash : BlockHeader → String)
    (sig : Signature) (now : Nat) (st : Store) :
    Except GenesisErr Store :=
  match validateGenesisConfig cfg with
  | some e => .error e
  | none => .ok (storeBatch st (genesisOps cfg headerHash sig now))

/-! ## Derived observations used by the theorems -/

/-- Whether a store key belongs to the balance table of the given asset. -/
def isAssetBalanceKey (asset_id k : String) : Bool :=
  strLeadsWith ("balances/" ++ asset_id ++ "/") k

/-- Contribution of one store entry to the balance total of an asset. -/
def entryAmount (asset_id : String) (e : String × Val) : Nat :=
  if isAssetBalanceKey asset_id e.1 then
    match e.2 with
    | .balance b => b.amount
    | _ => 0
  else 0

/-- Sum of all stored balances of an asset; absent keys contribute
nothing, hence count as zero. -/
def assetBalanceSum (st : Store) (asset_id : String) : Nat :=
  (st.map (entryAmount asset_id)).sum

/-- Amount readable at a store key, zero if absent or not a balance. -/
def balAt (st : Store) (k : String) : Nat :=
  match storeGet st k with
  | some (.balance b) => b.amount
  | _ => 0

/-- Whether any operation of a batch touches the given key. -/
def batchMentions (ops : List BatchOp) (k : String) : Bool :=
  ops.any (fun op =>
    match op with
    | .put k2 _ => k2 == k
    | .del k2 => k2 == k)

/-! ## Concrete instances for the closed theorems -/

/-- An empty placeholder signature (signatures are irrelevant to the state
transition facts proved here). -/
def dummySig : Signature := ⟨"", ""⟩

/-- A degenerate header hash used where the hash value is irrelevant. -/
def dummyHash : BlockHeader → String := fun _ => "H"

/-- A degenerate transaction hash keyed by the nonce. -/
def dummyTxHash : Transaction → String := fun tx => toString tx.body.nonce

/-- A transaction with the given nonce and instruction list, signed by
admin at root. -/
def mkTx (nonce : Nat) (instrs : List Instruction) : Transaction :=
  ⟨⟨"chain", "admin@root", nonce, 1, instrs⟩, dummySig⟩

/-- Block carrying one transaction that registers the domain finance. -/
def blkC1 : Block :=
  ⟨⟨1, "", 1⟩, [mkTx 1 [.registerDomain "finance"]], "node1", dummySig⟩

/-- Block whose first transaction fails at its second instruction (the
domain a is registered twice) and whose second transaction registers the
domain b. -/
def blkC2 : Block :=
  ⟨⟨1, "", 1⟩,
   [mkTx 1 [.registerDomain "a", .registerDomain "a"],
    mkTx 2 [.registerDomain "b"]],
   "node1", dummySig⟩

/-- A nil-vote-free prevote set: three distinct validators, each voting for
block hash h1. -/
def prevotesAllForHash : List (String × Vote) :=
  [("node1", ⟨some "h1", 5, 0, "node1", dummySig⟩),
   ("node2", ⟨some "h1", 5, 0, "node2", dummySig⟩),
   ("node3", ⟨some "h1", 5, 0, "node3", dummySig⟩)]

/-- Consensus state in the prevote step with no valid block and three
recorded hash-carrying prevotes (out of four validators). -/
def csC4 : ConsensusState :=
  ⟨5, 0, ConsensusStep.prevote, none, none, none, none,
   prevotesAllForHash, []⟩

/-- Consensus state in the prevote step with no valid block and three
recorded nil prevotes (out of four validators). -/
def csC4nil : ConsensusState :=
  ⟨5, 0, ConsensusStep.prevote, none, none, none, none,
   [("node1", ⟨none, 5, 0, "node1", dummySig⟩),
    ("node2", ⟨none, 5, 0, "node2", dummySig⟩),
    ("node3", ⟨none, 5, 0, "node3", dummySig⟩)], []⟩

/-- Store holding the asset usd at root with precision 0 and the account
alice at root, and no balance entry. -/
def stAssetAcct : Store :=
  [("assets/usd#root", .asset ⟨"usd#root", 0, 1⟩),
   ("accounts/alice@root", .account ⟨"alice@root", "pk", [], 1⟩)]

/-- The same store with a stored balance of 7 for alice. -/
def stAssetAcctBal : Store :=
  [("assets/usd#root", .asset ⟨"usd#root", 0, 1⟩),
   ("accounts/alice@root", .account ⟨"alice@root", "pk", [], 1⟩),
   ("balances/usd#root/alice@root", .balance ⟨"usd#root", "alice@root", 7⟩)]

/-- Store with two accounts, alice holding 7 of the asset. -/
def stTwoAcct : Store :=
  [("assets/usd#root", .asset ⟨"usd#root", 0, 1⟩),
   ("accounts/alice@root", .account ⟨"alice@root", "pk", [], 1⟩),
   ("accounts/bob@root", .account ⟨"bob@root", "pk", [], 1⟩),
   ("balances/usd#root/alice@root", .balance ⟨"usd#root", "alice@root", 7⟩)]

/-- Genesis config whose admin role carries no permissions at all: the
wildcard is absent, yet a role named admin exists and an account holds
it. -/
def cfgNoStar : GenesisConfig :=
  ⟨"chain",
   ⟨[⟨"root", 1⟩],
    [⟨"admin@root", "pk", ["admin"], 1⟩],
    [], [],
    [⟨"admin", []⟩],
    [⟨"node1", "pk"⟩]⟩⟩

/-- Genesis config with no role named admin at all. -/
def cfgNoAdminRole : GenesisConfig :=
  ⟨"chain",
   ⟨[⟨"root", 1⟩],
    [⟨"admin@root", "pk", [], 1⟩],
    [], [], [],
    [⟨"node1", "pk"⟩]⟩⟩

/-- The nested object on which the shallow property-list serialization
drops keys: the inner object's keys c and d are not top-level keys. -/
def jsonNested : Json :=
  .obj [("b", .num 1), ("a", .obj [("d", .num 2), ("c", .num 3)])]

/-! # Theorems -/

/-! ## Store lemmas -/

theorem storeGet_cons (e : String × Val) (st : Store) (k : String) :
    storeGet (e :: st) k = if e.1 = k then some e.2 else storeGet st k := by
  simp only [storeGet, List.find?_cons]
  by_cases he : e.1 = k
  · simp [he]
  · have hb : (e.1 == k) = false := beq_eq_false_iff_ne.mpr he
    simp [hb, he]

theorem storeDel_cons (e : String × Val) (st : Store) (k : String) :
    storeDel (e :: st) k
      = if e.1 = k then storeDel st k else e :: storeDel st k := by
  simp only [storeDel, List.filter_cons]
  by_cases he : e.1 = k
  · simp [he]
  · simp [he]

theorem storeGet_del_self (st : Store) (k : String) :
    storeGet (storeDel st k) k = none := by
  induction st with
  | nil => rfl
  | cons e st ih =>
    rw [storeDel_cons]
    by_cases he : e.1 = k
    · rw [if_pos he]
      exact ih
    · rw [if_neg he, storeGet_cons, if_neg he]
      exact ih

theorem storeGet_del_ne (st : Store) (k k2 : String) (h : k2 ≠ k) :
    storeGet (storeDel st k) k2 = storeGet st k2 := by
  induction st with
  | nil => rfl
  | cons e st ih =>
    rw [storeDel_cons]
    by_cases he : e.1 = k
    · rw [if_pos he, ih, storeGet_cons]
      have hne : ¬ e.1 = k2 := by
        rw [he]
        exact fun hc => h hc.symm
      rw [if_neg hne]
    · rw [if_neg he, storeGet_cons, storeGet_cons, ih]

theorem storeGet_put_self (st : Store) (k : String) (v : Val) :
    storeGet (storePut st k v) k = some v := by
  show storeGet ((k, v) :: storeDel st k) k = some v
  rw [storeGet_cons, if_pos rfl]

theorem storeGet_put_ne (st : Store) (k k2 : String) (v : Val) (h : k2 ≠ k) :
    storeGet (storePut st k v) k2 = storeGet st k2 := by
  show storeGet ((k, v) :: storeDel st k) k2 = storeGet st k2
  rw [storeGet_cons]
  have hne : ¬ (k, v).1 = k2 := fun hc => h hc.symm
  rw [if_neg hne]
  exact storeGet_del_ne st k k2 h

theorem append_left_cancel_str (a b c : String) (h : a ++ b = a ++ c) :
    b = c := by
  have hd : a.data ++ b.data = a.data ++ c.data := by
    have h2 := congrArg String.data h
    simpa [String.data_append] using h2
  have hbc : b.data = c.data := List.append_cancel_left hd
  obtain ⟨db⟩ := b
  obtain ⟨dc⟩ := c
  have h3 : db = dc := hbc
  rw [h3]

theorem balanceKey_inj_account (asset_id a1 a2 : String)
    (h : balanceKey asset_id a1 = balanceKey asset_id a2) : a1 = a2 :=
  append_left_cancel_str ("balances/" ++ asset_id ++ "/") a1 a2 h

/-- A quorum check with an absent hash counts every recorded vote. -/
theorem hasQuorum_none_eq (n : Nat) (votes : List (String × Vote)) :
    hasQuorum n votes none
      = decide (getQuorumSize n ≤ votes.length) := by
  unfold hasQuorum
  simp

theorem orElse_none {α : Type} (a b : Option α) (h : (a <|> b) = none) :
    a = none ∧ b = none := by
  cases a with
  | none => simpa using h
  | some x => simp at h

/-- C1: the claim states that the instruction engine only issues writes
gathered into the single commit batch and that a failed commit leaves no
observable state change.  In the source the engine handlers write directly
to the store, bypassing the batch: applying a block whose only transaction
registers the domain finance with a failing batch commit leaves the domain
visible in the store even though the original store had no such key, and no
operation of the assembled batch even mentions that key. -/
theorem c1_partial_state_on_failed_commit :
    storeGet (applyBlock dummyHash dummyTxHash 7 false [] blkC1).1
        "domains/finance" = some (.domain ⟨"finance", 7⟩) ∧
    storeGet ([] : Store) "domains/finance" = none ∧
    (applyBlock dummyHash dummyTxHash 7 false [] blkC1).1 ≠ [] ∧
    batchMentions (applyBlockRun dummyHash dummyTxHash 7 [] blkC1).2.1
        "domains/finance" = false := by
  decide

/-- C2: the claim states that a transaction failing mid-way is rolled back
and the other transactions of the block still apply.  In the source,
applyBlock has no per-transaction recovery: the first transaction of blkC2
fails at its second instruction, its first write (domains/a) stays in the
store, the second transaction (registering domains/b) never runs, and the
block is not recorded (last_height is never written because the batch is
never committed). -/
theorem c2_no_rollback_and_block_aborts :
    (applyBlock dummyHash dummyTxHash 7 true [] blkC2).2
        = some (.alreadyExists "a") ∧
    storeGet (applyBlock dummyHash dummyTxHash 7 true [] blkC2).1
        "domains/a" = some (.domain ⟨"a", 7⟩) ∧
    storeGet (applyBlock dummyHash dummyTxHash 7 true [] blkC2).1
        "domains/b" = none ∧
    storeGet (applyBlock dummyHash dummyTxHash 7 true [] blkC2).1
        "last_height" = none := by
  decide

/-- C3 counterexample: canonical serialization does not emit the keys of
every nested object.  On jsonNested the source serializer drops the inner
keys c and d entirely (they are not top-level keys), so its output differs
from the serialization described by the claim, in which every object's keys
appear sorted at every level. -/
theorem c3_counterexample_nested_keys_dropped :
    canonicalJsonStringify jsonNested = "\x7b\"a\":\x7b\x7d,\"b\":1\x7d" ∧
    specCanonicalJson jsonNested
      = "\x7b\"a\":\x7b\"c\":3,\"d\":2\x7d,\"b\":1\x7d" ∧
    canonicalJsonStringify jsonNested ≠ specCanonicalJson jsonNested := by
  decide

/-- C4 counterexample: with four validators (quorum 3) and three recorded
prevotes that all carry a block hash, the engine still transitions to
precommit and emits a nil precommit, even though the number of nil prevotes
is zero, strictly below the quorum: the nil branch of hasQuorum counts
every vote, not only nil votes. -/
theorem c4_counterexample_nil_quorum_counts_all_votes :
    csC4.step = ConsensusStep.prevote ∧
    (checkPrevoteQuorum (fun _ => "") 4 csC4).2 = some none ∧
    nilVoteCount csC4.prevotes < getQuorumSize 4 := by
  decide

/-- C8 counterexample: minting a zero amount to an account with no stored
balance succeeds and stores an explicit zero-amount balance key, so a
stored balance key holding zero is observable after an instruction
execution. -/
theorem c8_counterexample_mint_zero_stores_zero :
    execute stAssetAcct 1 (.mintAsset "usd#root" "alice@root" "0")
        "admin@root"
      = .ok (storePut stAssetAcct "balances/usd#root/alice@root"
          (.balance ⟨"usd#root", "alice@root", 0⟩)) ∧
    storeGet (storePut stAssetAcct "balances/usd#root/alice@root"
          (.balance ⟨"usd#root", "alice@root", 0⟩))
        "balances/usd#root/alice@root"
      = some (.balance ⟨"usd#root", "alice@root", 0⟩) := by
  decide

/-- C9 counterexample: a configuration whose admin role has an empty
permission list (no wildcard) passes validation and bootstraps
successfully; the source checks only the role name, never its
permissions. -/
theorem c9_counterexample_admin_without_wildcard_accepted :
    (bootstrap cfgNoStar dummyHash dummySig 3 []).isOk = true ∧
    cfgNoStar.genesis.roles.any
      (fun r => r.id == "admin" && r.permissions.contains "*") = false := by
  decide

/-- C4 amended: in the prevote step, a nil precommit is emitted exactly
when the valid-block quorum branch does not fire and the TOTAL number of
recorded prevotes for the current height and round, nil or not, reaches
Q = 2f+1: the nil check of hasQuorum counts every vote. -/
theorem c4_amended_nil_precommit_on_total_quorum
    (hashHeader : BlockHeader → String) (n : Nat) (cs : ConsensusState)
    (hstep : cs.step = ConsensusStep.prevote) :
    (checkPrevoteQuorum hashHeader n cs).2 = some none ↔
      ((∀ vb, cs.validBlock = some vb →
          hasQuorum n cs.prevotes (some (hashHeader vb.header)) = false) ∧
        getQuorumSize n ≤ cs.prevotes.length) := by
  have hstep2 : ¬ cs.step ≠ ConsensusStep.prevote := by simp [hstep]
  unfold checkPrevoteQuorum
  rw [if_neg hstep2]
  cases hvb : cs.validBlock with
  | none =>
    show (prevoteNilCheck n cs).2 = some none ↔
      ((∀ vb, (none : Option Block) = some vb →
          hasQuorum n cs.prevotes (some (hashHeader vb.header)) = false) ∧
        getQuorumSize n ≤ cs.prevotes.length)
    unfold prevoteNilCheck
    rw [hasQuorum_none_eq]
    by_cases hq : getQuorumSize n ≤ cs.prevotes.length
    · rw [if_pos (by simpa using hq)]
      exact ⟨fun _ => ⟨fun vb hvb2 => Option.noConfusion hvb2, hq⟩,
        fun _ => rfl⟩
    · rw [if_neg (by simpa using hq)]
      exact ⟨fun hc => Option.noConfusion hc, fun hr => absurd hr.2 hq⟩
  | some vb =>
    show ((if hasQuorum n cs.prevotes (some (hashHeader vb.header)) = true
        then
          (⟨cs.height, cs.round, ConsensusStep.precommit, some vb,
              some cs.round, some vb, cs.validRound, cs.prevotes,
              cs.precommits⟩,
            some (some (hashHeader vb.header)))
        else prevoteNilCheck n cs)).2 = some none ↔
      ((∀ vb2, (some vb : Option Block) = some vb2 →
          hasQuorum n cs.prevotes (some (hashHeader vb2.header)) = false) ∧
        getQuorumSize n ≤ cs.prevotes.length)
    by_cases hbq : hasQuorum n cs.prevotes (some (hashHeader vb.header))
        = true
    · rw [if_pos hbq]
      constructor
      · intro hc
        exact Option.noConfusion (Option.some.inj hc)
      · rintro ⟨hall, _⟩
        have hfalse := hall vb rfl
        rw [hfalse] at hbq
        exact Bool.noConfusion hbq
    · rw [if_neg hbq]
      unfold prevoteNilCheck
      rw [hasQuorum_none_eq]
      by_cases hq : getQuorumSize n ≤ cs.prevotes.length
      · rw [if_pos (by simpa using hq)]
        constructor
        · intro _
          refine ⟨?_, hq⟩
          intro vb2 hvb2
          have hvbEq : vb = vb2 := Option.some.inj hvb2
          rw [← hvbEq]
          exact Bool.eq_false_iff.mpr hbq
        · intro _
          rfl
      · rw [if_neg (by simpa using hq)]
        exact ⟨fun hc => Option.noConfusion hc, fun hr => absurd hr.2 hq⟩

/-- C4 witness: with four validators and three nil prevotes recorded in the
prevote step, the amended rule fires and a nil precommit is emitted. -/
theorem c4_witness :
    (checkPrevoteQuorum (fun _ => "") 4 csC4nil).2 = some none := by
  refine (c4_amended_nil_precommit_on_total_quorum (fun _ => "") 4 csC4nil
    rfl).mpr ⟨?_, by decide⟩
  intro vb hvb
  exact Option.noConfusion hvb

/-- A configuration that passes validation has a role named admin and an
account holding it (the two final checks of the source). -/
theorem validateGenesis_none_admin (cfg : GenesisConfig)
    (h : validateGenesisConfig cfg = none) :
    cfg.genesis.roles.any (fun r => r.id == "admin") = true ∧
    cfg.genesis.accounts.any (fun a => a.roles.contains "admin") = true := by
  unfold validateGenesisConfig at h
  by_cases hc : cfg.chain_id = ""
  · rw [if_pos hc] at h
    exact Option.noConfusion h
  · rw [if_neg hc] at h
    obtain ⟨-, h⟩ := orElse_none _ _ h
    obtain ⟨-, h⟩ := orElse_none _ _ h
    obtain ⟨-, h⟩ := orElse_none _ _ h
    obtain ⟨-, h⟩ := orElse_none _ _ h
    obtain ⟨-, h⟩ := orElse_none _ _ h
    obtain ⟨-, h⟩ := orElse_none _ _ h
    obtain ⟨-, h⟩ := orElse_none _ _ h
    obtain ⟨-, h⟩ := orElse_none _ _ h
    obtain ⟨hrole, hacct⟩ := orElse_none _ _ h
    constructor
    · by_cases hr : cfg.genesis.roles.any (fun r => r.id == "admin") = true
      · exact hr
      · rw [if_neg (by simpa using hr)] at hrole
        exact Option.noConfusion hrole
    · by_cases ha : cfg.genesis.accounts.any
          (fun a => a.roles.contains "admin") = true
      · exact ha
      · rw [if_neg (by simpa using ha)] at hacct
        exact Option.noConfusion hacct

/-- C9 amended: bootstrap rejects, without committing, every configuration
lacking a role NAMED admin (the role's permission list, wildcard included,
is never inspected) and every configuration in which no account holds the
admin role. -/
theorem c9_amended_bootstrap_requires_admin_role_and_holder
    (cfg : GenesisConfig) (headerHash : BlockHeader → String)
    (sig : Signature) (now : Nat) (st : Store) :
    ((¬ ∃ r ∈ cfg.genesis.roles, r.id = "admin") →
      (bootstrap cfg headerHash sig now st).isOk = false) ∧
    ((¬ ∃ a ∈ cfg.genesis.accounts, "admin" ∈ a.roles) →
      (bootstrap cfg headerHash sig now st).isOk = false) := by
  have key : (bootstrap cfg headerHash sig now st).isOk = true →
      cfg.genesis.roles.any (fun r => r.id == "admin") = true ∧
      cfg.genesis.accounts.any (fun a => a.roles.contains "admin")
        = true := by
    intro hok
    have hv : validateGenesisConfig cfg = none := by
      unfold bootstrap at hok
      cases hv2 : validateGenesisConfig cfg with
      | none => rfl
      | some e =>
        rw [hv2] at hok
        exact absurd hok Bool.false_ne_true
    exact validateGenesis_none_admin cfg hv
  constructor
  · intro hno
    cases hok : (bootstrap cfg headerHash sig now st).isOk with
    | false => rfl
    | true =>
      exfalso
      obtain ⟨h1, -⟩ := key hok
      rw [List.any_eq_true] at h1
      obtain ⟨r, hr, hrid⟩ := h1
      exact hno ⟨r, hr, by simpa using hrid⟩
  · intro hno
    cases hok : (bootstrap cfg headerHash sig now st).isOk with
    | false => rfl
    | true =>
      exfalso
      obtain ⟨-, h2⟩ := key hok
      rw [List.any_eq_true] at h2
      obtain ⟨a, ha, hmem⟩ := h2
      exact hno ⟨a, ha, by simpa using hmem⟩

/-- C9 witness: a configuration with no role named admin at all is
rejected. -/
theorem c9_witness :
    (bootstrap cfgNoAdminRole dummyHash dummySig 3 []).isOk = false := by
  refine (c9_amended_bootstrap_requires_admin_role_and_holder
    cfgNoAdminRole dummyHash dummySig 3 []).1 ?_
  rintro ⟨r, hr, -⟩
  simp [cfgNoAdminRole] at hr

/-- C8 amended: burn deletes the balance key instead of storing zero
whenever the remaining amount is zero, and transfer does the same for the
source key when source and destination differ; the mint counterexample
shows zero-amount keys are still observable after other instructions. -/
theorem c8_amended_burn_and_transfer_never_store_zero
    (st : Store) (now : Nat) (signer : String) :
    (∀ asset_id account_id amt st',
      execute st now (.burnAsset asset_id account_id amt) signer = .ok st' →
      ∀ b, storeGet st' (balanceKey asset_id account_id)
          = some (.balance b) → 0 < b.amount) ∧
    (∀ asset_id src dest amt st', src ≠ dest →
      execute st now (.transferAsset asset_id src dest amt) signer
        = .ok st' →
      ∀ b, storeGet st' (balanceKey asset_id src) = some (.balance b) →
        0 < b.amount) := by
  constructor
  · intro A c m st' hex b hget
    simp only [execute, handleBurnAsset] at hex
    split at hex
    · exact Except.noConfusion hex
    · split at hex
      · exact Except.noConfusion hex
      · split at hex
        · exact Except.noConfusion hex
        · split at hex
          · exact Except.noConfusion hex
          · split at hex
            · exact Except.noConfusion hex
            · split at hex
              · have hst : st' = storeDel st (balanceKey A c) :=
                  (Except.ok.inj hex).symm
                rw [hst, storeGet_del_self] at hget
                exact Option.noConfusion hget
              · have hst := (Except.ok.inj hex).symm
                rw [hst, storeGet_put_self] at hget
                have hbv := Val.balance.inj (Option.some.inj hget)
                rename_i hz
                apply Nat.pos_of_ne_zero
                intro hc
                rw [← hbv] at hc
                simp at hc
                exact hz hc
  · intro A src dest m st' hsd hex b hget
    have hkey : balanceKey A src ≠ balanceKey A dest := fun hc =>
      hsd (balanceKey_inj_account A src dest hc)
    simp only [execute, handleTransferAsset] at hex
    split at hex
    · exact Except.noConfusion hex
    · split at hex
      · exact Except.noConfusion hex
      · split at hex
        · exact Except.noConfusion hex
        · split at hex
          · exact Except.noConfusion hex
          · split at hex
            · exact Except.noConfusion hex
            · split at hex
              · exact Except.noConfusion hex
              · have hst := (Except.ok.inj hex).symm
                rw [hst, storeGet_put_ne _ _ _ _ hkey] at hget
                split at hget
                · rw [storeGet_del_self] at hget
                  exact Option.noConfusion hget
                · rw [storeGet_put_self] at hget
                  have hbv := Val.balance.inj (Option.some.inj hget)
                  rename_i hz
                  apply Nat.pos_of_ne_zero
                  intro hc
                  rw [← hbv] at hc
                  simp at hc
                  exact hz hc

/-- C8 witness: burning 3 of a stored balance of 7 succeeds, the key then
holds 4, and the amended burn clause confirms the stored amount is
positive. -/
theorem c8_witness :
    execute stAssetAcctBal 1 (.burnAsset "usd#root" "alice@root" "3")
        "admin@root"
      = .ok (storePut stAssetAcctBal "balances/usd#root/alice@root"
          (.balance ⟨"usd#root", "alice@root", 4⟩)) ∧
    0 < (4 : Nat) := by
  refine ⟨by decide, ?_⟩
  exact (c8_amended_burn_and_transfer_never_store_zero
      stAssetAcctBal 1 "admin@root").1 "usd#root" "alice@root" "3"
      (storePut stAssetAcctBal "balances/usd#root/alice@root"
        (.balance ⟨"usd#root", "alice@root", 4⟩))
      (by decide) ⟨"usd#root", "alice@root", 4⟩ (by decide)

/-- C10 amended: when the source balance key is PRESENT with stored amount
at least the converted transfer amount, a self-transfer succeeds and the
stored amount afterwards equals the stored amount before (the destination
read happens after the source write, so the freshly written remainder is
read back and topped up to the original amount). -/
theorem c10_amended_self_transfer_preserves_balance
    (st : Store) (now : Nat) (signer asset_id acct amt : String)
    (asset : Asset) (b : Balance) (n : Nat)
    (hasset : getAsset st asset_id = some asset)
    (hacct : (getAccount st acct).isNone = false)
    (hamt : validateAmount amt asset.precision = .ok n)
    (hbal : getBalance st asset_id acct = some b)
    (hle : n ≤ b.amount) :
    ∃ st', execute st now (.transferAsset asset_id acct acct amt) signer
        = .ok st' ∧
      storeGet st' (balanceKey asset_id acct)
        = some (.balance ⟨asset_id, acct, b.amount⟩) := by
  simp only [execute, handleTransferAsset, hasset, hacct, hamt, hbal,
    Bool.false_eq_true, if_false]
  rw [if_neg (by omega : ¬ b.amount < n)]
  by_cases hz : b.amount - n = 0
  · rw [if_pos hz]
    have hg1 : getBalance (storeDel st (balanceKey asset_id acct))
        asset_id acct = none := by
      simp [getBalance, storeGet_del_self]
    simp only [hg1]
    refine ⟨_, rfl, ?_⟩
    rw [storeGet_put_self]
    have harith : 0 + n = b.amount := by omega
    rw [harith]
  · rw [if_neg hz]
    have hg1 : getBalance (storePut st (balanceKey asset_id acct)
          (.balance ⟨asset_id, acct, b.amount - n⟩)) asset_id acct
        = some ⟨asset_id, acct, b.amount - n⟩ := by
      simp [getBalance, storeGet_put_self]
    simp only [hg1]
    refine ⟨_, rfl, ?_⟩
    rw [storeGet_put_self]
    have harith : b.amount - n + n = b.amount := Nat.sub_add_cancel hle
    rw [harith]

/-- C10 witness: a self-transfer of 3 from a stored balance of 7 succeeds
and leaves the stored balance at 7. -/
theorem c10_witness :
    ∃ st', execute stAssetAcctBal 1
        (.transferAsset "usd#root" "alice@root" "alice@root" "3")
        "alice@root" = .ok st' ∧
      storeGet st' (balanceKey "usd#root" "alice@root")
        = some (.balance ⟨"usd#root", "alice@root", 7⟩) :=
  c10_amended_self_transfer_preserves_balance stAssetAcctBal 1
    "alice@root" "usd#root" "alice@root" "3" ⟨"usd#root", 0, 1⟩
    ⟨"usd#root", "alice@root", 7⟩ 3 (by decide) (by decide) (by decide)
    (by decide) (by decide)

/-! ## Balance-sum lemmas for C7 -/

theorem charsLeadWith_append (l m : List Char) :
    charsLeadWith l (l ++ m) = true := by
  induction l with
  | nil => rfl
  | cons a l ih => simp [charsLeadWith, ih]

theorem isAssetBalanceKey_balanceKey (A acc : String) :
    isAssetBalanceKey A (balanceKey A acc) = true := by
  unfold isAssetBalanceKey balanceKey strLeadsWith
  rw [String.data_append]
  exact charsLeadWith_append _ _

theorem assetBalanceSum_cons (e : String × Val) (st : Store) (A : String) :
    assetBalanceSum (e :: st) A = entryAmount A e + assetBalanceSum st A := by
  simp [assetBalanceSum]

theorem entryAmount_at_key (A k : String) (v : Val)
    (hk : isAssetBalanceKey A k = true) :
    entryAmount A (k, v)
      = match v with
        | .balance b => b.amount
        | _ => 0 := by
  simp [entryAmount, hk]

theorem balAt_balanceKey (st : Store) (A acc : String) :
    balAt st (balanceKey A acc)
      = match getBalance st A acc with
        | some b => b.amount
        | none => 0 := by
  unfold balAt getBalance
  cases hs : storeGet st (balanceKey A acc) with
  | none => rfl
  | some v => cases v <;> rfl

theorem not_mem_keys_del (st : Store) (k : String) :
    k ∉ (storeDel st k).map Prod.fst := by
  intro hmem
  rw [List.mem_map] at hmem
  obtain ⟨e, he, hk⟩ := hmem
  unfold storeDel at he
  rw [List.mem_filter] at he
  have hne : e.1 ≠ k := by simpa using he.2
  exact hne hk

theorem storeWF_del (st : Store) (k : String) (h : storeWF st) :
    storeWF (storeDel st k) := by
  unfold storeWF storeDel at *
  exact h.sublist (List.Sublist.map Prod.fst (List.filter_sublist st))

theorem storeWF_put (st : Store) (k : String) (v : Val) (h : storeWF st) :
    storeWF (storePut st k v) := by
  unfold storeWF storePut
  rw [List.map_cons]
  exact List.nodup_cons.mpr ⟨not_mem_keys_del st k, storeWF_del st k h⟩

theorem storeDel_of_not_mem (st : Store) (k : String)
    (h : k ∉ st.map Prod.fst) : storeDel st k = st := by
  unfold storeDel
  apply List.filter_eq_self.mpr
  intro e he
  have : e.1 ≠ k := fun hc => h (List.mem_map.mpr ⟨e, he, hc⟩)
  simpa using this

/-- Deleting a key splits the asset sum into the rest plus the amount
readable at the key (stores with unique keys). -/
theorem assetBalanceSum_del (st : Store) (A k : String)
    (hk : isAssetBalanceKey A k = true) (hWF : storeWF st) :
    assetBalanceSum (storeDel st k) A + balAt st k
      = assetBalanceSum st A := by
  induction st with
  | nil => rfl
  | cons e st ih =>
    have hWF2 := List.nodup_cons.mp hWF
    rw [storeDel_cons, assetBalanceSum_cons]
    by_cases he : e.1 = k
    · rw [if_pos he]
      have hnomem : k ∉ st.map Prod.fst := by
        rw [← he]
        exact hWF2.1
      rw [storeDel_of_not_mem st k hnomem]
      have hb : balAt (e :: st) k = entryAmount A e := by
        unfold balAt
        rw [storeGet_cons, if_pos he]
        obtain ⟨e1, e2⟩ := e
        have he1 : e1 = k := he
        rw [he1]
        rw [entryAmount_at_key A k e2 hk]
        cases e2 <;> rfl
      rw [hb]
      omega
    · rw [if_neg he, assetBalanceSum_cons]
      have hb : balAt (e :: st) k = balAt st k := by
        unfold balAt
        rw [storeGet_cons, if_neg he]
      rw [hb]
      have := ih hWF2.2
      omega

/-- Shape of a successful transfer: the checks that passed and the
resulting store, source updated first, destination read afterwards. -/
theorem handleTransferAsset_ok_shape (st : Store)
    (A src dest m : String) (st' : Store)
    (hex : handleTransferAsset st A src dest m = .ok st') :
    ∃ asset n srcBal,
      getAsset st A = some asset ∧
      validateAmount m asset.precision = .ok n ∧
      getBalance st A src = some srcBal ∧
      n ≤ srcBal.amount ∧
      st' =
        (let st1 := if srcBal.amount - n = 0 then
            storeDel st (balanceKey A src)
          else
            storePut st (balanceKey A src)
              (.balance ⟨A, src, srcBal.amount - n⟩);
         storePut st1 (balanceKey A dest)
           (.balance ⟨A, dest,
             (match getBalance st1 A dest with
              | some b => b.amount
              | none => 0) + n⟩)) := by
  unfold handleTransferAsset at hex
  split at hex
  · exact Except.noConfusion hex
  · split at hex
    · exact Except.noConfusion hex
    · split at hex
      · exact Except.noConfusion hex
      · split at hex
        · exact Except.noConfusion hex
        · split at hex
          · exact Except.noConfusion hex
          · split at hex
            · exact Except.noConfusion hex
            · rename_i x1 asset heqA hsrc hdest x2 n heqN x3 srcBal heqB hlt
              exact ⟨asset, n, srcBal, heqA, heqN, heqB, by omega,
                (Except.ok.inj hex).symm⟩

/-- C7: a successful TransferAsset leaves the sum of all stored balances
of the transferred asset unchanged, the self-transfer case included: both
touched keys lie inside the asset's balance key space, and the destination
balance is read after the source write. -/
theorem c7_transfer_preserves_asset_sum
    (st : Store) (now : Nat) (signer asset_id src dest amt : String)
    (st' : Store) (hWF : storeWF st)
    (hex : execute st now (.transferAsset asset_id src dest amt) signer
      = .ok st') :
    assetBalanceSum st' asset_id = assetBalanceSum st asset_id := by
  have hex2 : handleTransferAsset st asset_id src dest amt = .ok st' := hex
  obtain ⟨asset, n, srcBal, -, -, heqB, hle, hshape⟩ :=
    handleTransferAsset_ok_shape st asset_id src dest amt st' hex2
  generalize hst1 :
    (if srcBal.amount - n = 0 then storeDel st (balanceKey asset_id src)
     else storePut st (balanceKey asset_id src)
       (.balance ⟨asset_id, src, srcBal.amount - n⟩)) = st1 at hshape
  have hkSrc : isAssetBalanceKey asset_id (balanceKey asset_id src)
      = true := isAssetBalanceKey_balanceKey _ _
  have hkDest : isAssetBalanceKey asset_id (balanceKey asset_id dest)
      = true := isAssetBalanceKey_balanceKey _ _
  have hshape2 : st' = storePut st1 (balanceKey asset_id dest)
      (.balance ⟨asset_id, dest,
        balAt st1 (balanceKey asset_id dest) + n⟩) := by
    rw [hshape]
    show storePut st1 (balanceKey asset_id dest)
        (Val.balance ⟨asset_id, dest,
          (match getBalance st1 asset_id dest with
           | some b => b.amount
           | none => 0) + n⟩)
      = storePut st1 (balanceKey asset_id dest)
        (Val.balance ⟨asset_id, dest,
          balAt st1 (balanceKey asset_id dest) + n⟩)
    rw [← balAt_balanceKey st1 asset_id dest]
  have hWF1 : storeWF st1 := by
    rw [← hst1]
    split
    · exact storeWF_del st (balanceKey asset_id src) hWF
    · exact storeWF_put st (balanceKey asset_id src) _ hWF
  have h1 : assetBalanceSum st' asset_id
      = balAt st1 (balanceKey asset_id dest) + n
        + assetBalanceSum (storeDel st1 (balanceKey asset_id dest))
            asset_id := by
    rw [hshape2]
    show assetBalanceSum
      ((balanceKey asset_id dest,
        Val.balance ⟨asset_id, dest,
          balAt st1 (balanceKey asset_id dest) + n⟩)
        :: storeDel st1 (balanceKey asset_id dest)) asset_id = _
    rw [assetBalanceSum_cons, entryAmount_at_key _ _ _ hkDest]
  have h2 : assetBalanceSum (storeDel st1 (balanceKey asset_id dest))
        asset_id + balAt st1 (balanceKey asset_id dest)
      = assetBalanceSum st1 asset_id :=
    assetBalanceSum_del st1 asset_id (balanceKey asset_id dest) hkDest hWF1
  have hsrcBalAt : balAt st (balanceKey asset_id src) = srcBal.amount := by
    rw [balAt_balanceKey, heqB]
  by_cases hz : srcBal.amount - n = 0
  · have h3 : assetBalanceSum st1 asset_id + srcBal.amount
        = assetBalanceSum st asset_id := by
      rw [← hst1, if_pos hz, ← hsrcBalAt]
      exact assetBalanceSum_del st asset_id (balanceKey asset_id src)
        hkSrc hWF
    omega
  · have h3a : assetBalanceSum (storeDel st (balanceKey asset_id src))
          asset_id + srcBal.amount = assetBalanceSum st asset_id := by
      rw [← hsrcBalAt]
      exact assetBalanceSum_del st asset_id (balanceKey asset_id src)
        hkSrc hWF
    have h3b : assetBalanceSum st1 asset_id
        = (srcBal.amount - n)
          + assetBalanceSum (storeDel st (balanceKey asset_id src))
              asset_id := by
      rw [← hst1, if_neg hz]
      show assetBalanceSum
        ((balanceKey asset_id src,
          Val.balance ⟨asset_id, src, srcBal.amount - n⟩)
          :: storeDel st (balanceKey asset_id src)) asset_id = _
      rw [assetBalanceSum_cons, entryAmount_at_key _ _ _ hkSrc]
    omega

/-- C7 witness: transferring 3 from alice (holding 7) to bob leaves the
asset's stored sum at 7. -/
theorem c7_witness :
    assetBalanceSum
      [("balances/usd#root/bob@root",
        .balance ⟨"usd#root", "bob@root", 3⟩),
       ("balances/usd#root/alice@root",
        .balance ⟨"usd#root", "alice@root", 4⟩),
       ("assets/usd#root", .asset ⟨"usd#root", 0, 1⟩),
       ("accounts/alice@root", .account ⟨"alice@root", "pk", [], 1⟩),
       ("accounts/bob@root", .account ⟨"bob@root", "pk", [], 1⟩)]
      "usd#root" = assetBalanceSum stTwoAcct "usd#root" :=
  c7_transfer_preserves_asset_sum stTwoAcct 1 "alice@root" "usd#root"
    "alice@root" "bob@root" "3" _
    (show (stTwoAcct.map Prod.fst).Nodup by decide) (by decide)

/-! ## Serializer lemmas for C3 -/

theorem serializeJsonWith_scalar (K : List String) (v : Json)
    (hs : v.isScalar = true) :
    serializeJsonWith K v = specCanonicalJson v := by
  cases v with
  | null => rfl
  | bool b => rfl
  | num n => rfl
  | str s => rfl
  | arr xs => simp [Json.isScalar] at hs
  | obj fs => simp [Json.isScalar] at hs

theorem serializeFields_eq_map (K : List String)
    (l : List (String × Json)) :
    serializeFields K l
      = l.map (fun e => (e.1, serializeJsonWith K e.2)) := by
  induction l with
  | nil => rfl
  | cons e l ih =>
    obtain ⟨k, v⟩ := e
    simp [serializeFields, ih]

theorem serializeFields_scalar (K : List String)
    (l : List (String × Json))
    (hflat : l.all (fun e => e.2.isScalar) = true) :
    serializeFields K l = specCanonicalFields l := by
  induction l with
  | nil => rfl
  | cons e l ih =>
    obtain ⟨k, v⟩ := e
    simp only [List.all_cons] at hflat
    obtain ⟨h1, h2⟩ := Bool.and_eq_true_iff.mp hflat
    simp [serializeFields, specCanonicalFields,
      serializeJsonWith_scalar K v h1, ih h2]

theorem lookupStr_cons (e : String × String) (l : List (String × String))
    (k : String) :
    lookupStr (e :: l) k = if e.1 = k then some e.2 else lookupStr l k := by
  simp only [lookupStr, List.find?_cons]
  by_cases he : e.1 = k
  · simp [he]
  · have hb : (e.1 == k) = false := beq_eq_false_iff_ne.mpr he
    simp [hb, he]

theorem lookupStr_perm (l1 l2 : List (String × String)) (hp : l1.Perm l2)
    (hnd : (l2.map Prod.fst).Nodup) (k : String) :
    lookupStr l1 k = lookupStr l2 k := by
  induction hp with
  | nil => rfl
  | cons x p ih =>
    rw [lookupStr_cons, lookupStr_cons]
    rw [List.map_cons] at hnd
    have hnd2 := (List.nodup_cons.mp hnd).2
    by_cases he : x.1 = k
    · simp [he]
    · simp only [he, if_false]
      exact ih hnd2
  | swap x y t =>
    rw [lookupStr_cons, lookupStr_cons, lookupStr_cons, lookupStr_cons]
    by_cases hx : x.1 = k
    · by_cases hy : y.1 = k
      · exfalso
        rw [List.map_cons, List.map_cons] at hnd
        have hxy : x.1 ∉ (y.1 :: t.map Prod.fst) :=
          (List.nodup_cons.mp hnd).1
        apply hxy
        have hxyEq : x.1 = y.1 := hx.trans hy.symm
        rw [hxyEq]
        exact List.mem_cons_self _ _
      · simp [hx, hy]
    · by_cases hy : y.1 = k
      · simp [hx, hy]
      · simp [hx, hy]
  | trans p1 p2 ih1 ih2 =>
    rename_i m1 m2 m3
    have hndm : (m2.map Prod.fst).Nodup :=
      (List.Perm.nodup_iff (p2.map Prod.fst)).mpr hnd
    rw [ih1 hndm, ih2 hnd]

theorem selectFields_congr (K : List String)
    (r1 r2 : List (String × String))
    (h : ∀ k, lookupStr r1 k = lookupStr r2 k) :
    selectFields K r1 = selectFields K r2 := by
  unfold selectFields
  induction K with
  | nil => rfl
  | cons k K ih => simp [List.filterMap_cons, h k, ih]

theorem sortKeys_eq_of_perm (l1 l2 : List String) (h : l1.Perm l2) :
    sortKeys l1 = sortKeys l2 :=
  @List.eq_of_perm_of_sorted String keyLe _ _ _
    ((List.perm_insertionSort keyLe _).trans
      (h.trans (List.perm_insertionSort keyLe _).symm))
    (List.sorted_insertionSort keyLe _)
    (List.sorted_insertionSort keyLe _)

theorem serializeElems_eq_map (K : List String) (xs : List Json) :
    serializeElems K xs = xs.map (serializeJsonWith K) := by
  induction xs with
  | nil => rfl
  | cons x xs ih => simp [serializeElems, ih]

theorem distinctKeys_iff (l : List String) :
    distinctKeys l = true ↔ l.Nodup := by
  induction l with
  | nil => simp [distinctKeys]
  | cons k ks ih => simp [distinctKeys, List.nodup_cons, ih]

theorem insertPairByKey_perm (e : String × Json)
    (l : List (String × Json)) : (insertPairByKey e l).Perm (e :: l) := by
  induction l with
  | nil => exact List.Perm.refl _
  | cons f fs ih =>
    show (if keyLe e.1 f.1 then e :: f :: fs
      else f :: insertPairByKey e fs).Perm (e :: f :: fs)
    by_cases hc : keyLe e.1 f.1
    · rw [if_pos hc]
    · rw [if_neg hc]
      exact (List.Perm.cons f ih).trans (List.Perm.swap e f fs)

theorem sortPairsByKey_perm (l : List (String × Json)) :
    (sortPairsByKey l).Perm l := by
  induction l with
  | nil => exact List.Perm.refl _
  | cons e fs ih =>
    exact (insertPairByKey_perm e (sortPairsByKey fs)).trans
      (List.Perm.cons e ih)

theorem normalizeFields_keys (fs : List (String × Json)) :
    (normalizeFields fs).map Prod.fst = fs.map Prod.fst := by
  induction fs with
  | nil => rfl
  | cons e fs ih =>
    obtain ⟨k, v⟩ := e
    simp [normalizeFields, ih]

theorem normalizeElems_length (xs : List Json) :
    (normalizeElems xs).length = xs.length := by
  induction xs with
  | nil => rfl
  | cons x xs ih => simp [normalizeElems, ih]

theorem sortKeys_keys_normalize (j : Json) :
    sortKeys (Json.keys (normalizeJson j)) = sortKeys (Json.keys j) := by
  cases j with
  | null => rfl
  | bool b => rfl
  | num n => rfl
  | str s => rfl
  | arr xs =>
    show sortKeys
        ((List.range (normalizeElems xs).length).map (fun i => toString i))
      = sortKeys ((List.range xs.length).map (fun i => toString i))
    rw [normalizeElems_length]
  | obj kvs =>
    apply sortKeys_eq_of_perm
    have hp := (sortPairsByKey_perm (normalizeFields kvs)).map Prod.fst
    rw [normalizeFields_keys] at hp
    exact hp

mutual

/-- Replacing a well-keyed value by its observational normal form does not
change its serialization under any property list: the object branch only
looks fields up by key, and with distinct keys the lookups are invariant
under reordering. -/
theorem serializeJsonWith_normalize (K : List String) :
    (j : Json) → Json.wellKeyed j = true →
      serializeJsonWith K j = serializeJsonWith K (normalizeJson j)
  | .null, _ => rfl
  | .bool _, _ => rfl
  | .num _, _ => rfl
  | .str _, _ => rfl
  | .arr xs, h => by
    show "[" ++ String.intercalate "," (serializeElems K xs) ++ "]"
      = "[" ++ String.intercalate ","
          (serializeElems K (normalizeElems xs)) ++ "]"
    rw [serializeElems_normalize K xs h]
  | .obj kvs, h => by
    have h0 : (distinctKeys (kvs.map Prod.fst)
        && wellKeyedFields kvs) = true := h
    obtain ⟨h1, h2⟩ := Bool.and_eq_true_iff.mp h0
    show "\x7b" ++ String.intercalate ","
        (selectFields K (serializeFields K kvs)) ++ "\x7d"
      = "\x7b" ++ String.intercalate ","
        (selectFields K
          (serializeFields K (sortPairsByKey (normalizeFields kvs))))
        ++ "\x7d"
    have hf : serializeFields K (normalizeFields kvs)
        = serializeFields K kvs :=
      (serializeFields_normalize K kvs h2).symm
    have hsel : selectFields K
          (serializeFields K (sortPairsByKey (normalizeFields kvs)))
        = selectFields K (serializeFields K kvs) := by
      apply selectFields_congr
      intro k
      have hperm : (serializeFields K
            (sortPairsByKey (normalizeFields kvs))).Perm
          (serializeFields K (normalizeFields kvs)) := by
        rw [serializeFields_eq_map, serializeFields_eq_map]
        exact (sortPairsByKey_perm (normalizeFields kvs)).map _
      have hnd : ((serializeFields K (normalizeFields kvs)).map
          Prod.fst).Nodup := by
        rw [serializeFields_eq_map, List.map_map]
        have hco : ((normalizeFields kvs).map
            (Prod.fst ∘ fun e : String × Json =>
              (e.1, serializeJsonWith K e.2)))
            = (normalizeFields kvs).map Prod.fst := rfl
        rw [hco, normalizeFields_keys]
        exact (distinctKeys_iff _).mp h1
      rw [lookupStr_perm _ _ hperm hnd k, hf]
    rw [hsel]
termination_by structural j => j

/-- Array elements keep their serialization under normalization. -/
theorem serializeElems_normalize (K : List String) :
    (xs : List Json) → wellKeyedElems xs = true →
      serializeElems K xs = serializeElems K (normalizeElems xs)
  | [], _ => rfl
  | x :: xs, h => by
    have h0 : (Json.wellKeyed x && wellKeyedElems xs) = true := h
    obtain ⟨hx, hxs⟩ := Bool.and_eq_true_iff.mp h0
    show serializeJsonWith K x :: serializeElems K xs
      = serializeJsonWith K (normalizeJson x)
        :: serializeElems K (normalizeElems xs)
    rw [serializeJsonWith_normalize K x hx,
      serializeElems_normalize K xs hxs]
termination_by structural xs => xs

/-- Field values keep their serialization under normalization. -/
theorem serializeFields_normalize (K : List String) :
    (fs : List (String × Json)) → wellKeyedFields fs = true →
      serializeFields K fs = serializeFields K (normalizeFields fs)
  | [], _ => rfl
  | (k, v) :: fs, h => by
    have h0 : (Json.wellKeyed v && wellKeyedFields fs) = true := h
    obtain ⟨hv, hfs⟩ := Bool.and_eq_true_iff.mp h0
    show (k, serializeJsonWith K v) :: serializeFields K fs
      = (k, serializeJsonWith K (normalizeJson v))
        :: serializeFields K (normalizeFields fs)
    rw [serializeJsonWith_normalize K v hv,
      serializeFields_normalize K fs hfs]
termination_by structural fs => fs

end

/-- Canonical serialization of a well-keyed value factors through its
observational normal form. -/
theorem canonicalJsonStringify_normalize (j : Json)
    (h : Json.wellKeyed j = true) :
    canonicalJsonStringify j = canonicalJsonStringify (normalizeJson j) := by
  unfold canonicalJsonStringify
  rw [sortKeys_keys_normalize j]
  exact serializeJsonWith_normalize (sortKeys (Json.keys j)) j h

/-- C3 amended: canonical serialization does not emit every object's keys
sorted at every level (counterexample: nested keys outside the top-level
key list are dropped).  What does hold, for all objects: two
observably-equal values - same normal form after recursively sorting every
object's field list by key, objects well-keyed - produce identical bytes;
permuting the top-level fields of any object leaves the bytes unchanged;
arrays serialize their elements in source order; and on top-level-flat
scalar-valued objects the output coincides with the fully recursive
canonical serialization. -/
theorem c3_amended_canonical_serialization :
    (∀ j j' : Json, Json.wellKeyed j = true → Json.wellKeyed j' = true →
      normalizeJson j = normalizeJson j' →
      canonicalJsonStringify j = canonicalJsonStringify j') ∧
    (∀ kvs kvs2 : List (String × Json), (kvs.map Prod.fst).Nodup →
      kvs2.Perm kvs →
      canonicalJsonStringify (.obj kvs2)
        = canonicalJsonStringify (.obj kvs)) ∧
    (∀ (K : List String) (xs : List Json),
      serializeElems K xs = xs.map (serializeJsonWith K)) ∧
    (∀ kvs : List (String × Json),
      kvs.all (fun e => e.2.isScalar) = true →
      canonicalJsonStringify (.obj kvs) = specCanonicalJson (.obj kvs)) := by
  refine ⟨?_, ?_, ?_, ?_⟩
  · intro j j' hj hj' hnorm
    rw [canonicalJsonStringify_normalize j hj,
      canonicalJsonStringify_normalize j' hj', hnorm]
  · intro kvs kvs2 hnd hperm
    have hpk : (kvs2.map Prod.fst).Perm (kvs.map Prod.fst) :=
      hperm.map _
    have hK : sortKeys (kvs2.map Prod.fst)
        = sortKeys (kvs.map Prod.fst) := sortKeys_eq_of_perm _ _ hpk
    show "\x7b" ++ String.intercalate ","
        (selectFields (sortKeys (kvs2.map Prod.fst))
          (serializeFields (sortKeys (kvs2.map Prod.fst)) kvs2)) ++ "\x7d"
      = "\x7b" ++ String.intercalate ","
        (selectFields (sortKeys (kvs.map Prod.fst))
          (serializeFields (sortKeys (kvs.map Prod.fst)) kvs)) ++ "\x7d"
    rw [hK]
    have hsel : selectFields (sortKeys (kvs.map Prod.fst))
        (serializeFields (sortKeys (kvs.map Prod.fst)) kvs2)
      = selectFields (sortKeys (kvs.map Prod.fst))
        (serializeFields (sortKeys (kvs.map Prod.fst)) kvs) := by
      apply selectFields_congr
      intro k
      apply lookupStr_perm
      · rw [serializeFields_eq_map, serializeFields_eq_map]
        exact hperm.map _
      · rw [serializeFields_eq_map]
        have hco : ((kvs.map (fun e =>
            (e.1, serializeJsonWith (sortKeys (kvs.map Prod.fst)) e.2))).map
              Prod.fst) = kvs.map Prod.fst := by
          rw [List.map_map]
          rfl
        rw [hco]
        exact hnd
    rw [hsel]
  · intro K xs
    exact serializeElems_eq_map K xs
  · intro kvs hflat
    show "\x7b" ++ String.intercalate ","
        (selectFields (sortKeys (kvs.map Prod.fst))
          (serializeFields (sortKeys (kvs.map Prod.fst)) kvs)) ++ "\x7d"
      = "\x7b" ++ String.intercalate ","
        (selectFields (sortKeys (kvs.map Prod.fst))
          (specCanonicalFields kvs)) ++ "\x7d"
    rw [serializeFields_scalar _ _ hflat]

/-- C3 witness: reordering the fields of a NESTED object (inner fields
swapped, outer fields swapped) leaves the canonical bytes unchanged; so
does permuting the two fields of a flat object, whose serialization also
equals the recursive canonical form. -/
theorem c3_witness :
    canonicalJsonStringify
        (.obj [("b", .num 1), ("a", .obj [("d", .num 2), ("c", .num 3)])])
      = canonicalJsonStringify
        (.obj [("a", .obj [("c", .num 3), ("d", .num 2)]), ("b", .num 1)]) ∧
    canonicalJsonStringify (.obj [("b", .str "x"), ("a", .num 1)])
      = canonicalJsonStringify (.obj [("a", .num 1), ("b", .str "x")]) ∧
    canonicalJsonStringify (.obj [("a", .num 1), ("b", .str "x")])
      = specCanonicalJson (.obj [("a", .num 1), ("b", .str "x")]) := by
  refine ⟨?_, ?_, ?_⟩
  · exact c3_amended_canonical_serialization.1 _ _ (by decide) (by decide)
      rfl
  · exact c3_amended_canonical_serialization.2.1
      [("a", .num 1), ("b", .str "x")] [("b", .str "x"), ("a", .num 1)]
      (by decide) (List.Perm.swap ("a", Json.num 1) ("b", Json.str "x") [])
  · exact c3_amended_canonical_serialization.2.2.2 _ (by decide)

/-- Folding digits over an arbitrary start value scales the start by the
corresponding power of ten. -/
theorem digitsFold_start (cs : List Char) :
    ∀ n, cs.foldl (fun acc c => 10 * acc + digitVal c) n
      = n * 10 ^ cs.length + digitsToNat cs := by
  induction cs with
  | nil => intro n; simp [digitsToNat]
  | cons c cs ih =>
    intro n
    show (cs.foldl (fun acc c => 10 * acc + digitVal c) (10 * n + digitVal c))
      = n * 10 ^ (c :: cs).length + digitsToNat (c :: cs)
    rw [ih (10 * n + digitVal c)]
    have hd : digitsToNat (c :: cs)
        = digitVal c * 10 ^ cs.length + digitsToNat cs := by
      show (cs.foldl (fun acc c => 10 * acc + digitVal c) (10 * 0 + digitVal c))
        = digitVal c * 10 ^ cs.length + digitsToNat cs
      rw [ih (10 * 0 + digitVal c)]
      ring
    rw [hd, List.length_cons, pow_succ]
    ring

/-- Digit-list value of a concatenation. -/
theorem digitsToNat_append (a b : List Char) :
    digitsToNat (a ++ b) = digitsToNat a * 10 ^ b.length + digitsToNat b := by
  show ((a ++ b).foldl (fun acc c => 10 * acc + digitVal c) 0)
    = digitsToNat a * 10 ^ b.length + digitsToNat b
  rw [List.foldl_append]
  exact digitsFold_start b (digitsToNat a)

/-- Trailing zeros contribute nothing beyond scaling. -/
theorem digitsToNat_replicateZero (k : Nat) :
    digitsToNat (List.replicate k '0') = 0 := by
  induction k with
  | zero => rfl
  | succ k ih =>
    rw [List.replicate_succ]
    show (List.replicate k '0').foldl
        (fun acc c => 10 * acc + digitVal c) (10 * 0 + digitVal '0') = 0
    rw [digitsFold_start]
    simp [ih]
    decide

/-- C5: the nonce check passes exactly when the nonce strictly exceeds the
last seen nonce of the signer (absent signers defaulting to 0, the map
persisting across blocks within a run), and an equal or lower nonce is
rejected with the INVALID_NONCE code. -/
theorem c5_nonce_check_strictly_monotonic
    (lastNonces : List (String × Nat)) (body : TransactionBody) :
    (validateNonce lastNonces body = none ↔
      lastSeenNonce lastNonces body.signer_id < body.nonce) ∧
    (body.nonce ≤ lastSeenNonce lastNonces body.signer_id →
      (validateNonce lastNonces body).map (fun e => e.code)
        = some "INVALID_NONCE") := by
  constructor
  · constructor
    · intro h
      by_contra hlt
      push_neg at hlt
      simp [validateNonce, hlt] at h
    · intro h
      have hle : ¬ body.nonce ≤ lastSeenNonce lastNonces body.signer_id := by
        omega
      simp [validateNonce, hle]
  · intro h
    simp [validateNonce, h]

/-- C5 witness: with a last seen nonce of 5 for the signer, nonce 5 is
rejected with INVALID_NONCE and nonce 6 passes. -/
theorem c5_witness :
    (validateNonce [("admin@root", 5)]
        ⟨"chain", "admin@root", 5, 1, []⟩).map (fun e => e.code)
      = some "INVALID_NONCE" ∧
    validateNonce [("admin@root", 5)] ⟨"chain", "admin@root", 6, 1, []⟩
      = none := by
  constructor
  · exact (c5_nonce_check_strictly_monotonic
      [("admin@root", 5)] ⟨"chain", "admin@root", 5, 1, []⟩).2 (by decide)
  · exact ((c5_nonce_check_strictly_monotonic
      [("admin@root", 5)] ⟨"chain", "admin@root", 6, 1, []⟩).1).mpr (by decide)

/-- C6: for an amount matching the regex and a precision at most 18, the
conversion fails exactly when the fractional tail is longer than the
precision, and otherwise yields the integer-part value scaled by ten to the
precision plus the fractional value scaled by the missing digits: the value
of the zero-padded concatenation. -/
theorem c6_amount_conversion (amount : String) (p : Nat)
    (hfmt : amountFormatOk amount = true) (hp : p ≤ 18) :
    ((validateAmount amount p).isOk = true ↔
      ((splitOnChar '.' amount).getD 1 "").length ≤ p) ∧
    (∀ n, validateAmount amount p = .ok n →
      n = strToNat ((splitOnChar '.' amount).getD 0 "") * 10 ^ p +
        strToNat ((splitOnChar '.' amount).getD 1 "") *
          10 ^ (p - ((splitOnChar '.' amount).getD 1 "").length)) := by
  have hval : ∀ w f : String, f.length ≤ p →
      strToNat (w ++ padEnd f p '0')
        = strToNat w * 10 ^ p + strToNat f * 10 ^ (p - f.length) := by
    intro w f hf
    show digitsToNat (w ++ padEnd f p '0').data = _
    have hdata : (w ++ padEnd f p '0').data
        = w.data ++ (f.data ++ List.replicate (p - f.length) '0') := by
      simp [padEnd, String.data_append]
    rw [hdata, digitsToNat_append, digitsToNat_append,
      digitsToNat_replicateZero, List.length_append, List.length_replicate]
    have hlen : f.length = f.data.length := rfl
    have hsum : f.data.length + (p - f.length) = p := by omega
    rw [hsum]
    show digitsToNat w.data * 10 ^ p +
        (digitsToNat f.data * 10 ^ (p - f.length) + 0) =
      digitsToNat w.data * 10 ^ p + digitsToNat f.data * 10 ^ (p - f.length)
    ring
  have hunfold : validateAmount amount p =
      (if ((splitOnChar '.' amount).getD 1 "").length > p then
        Except.error (ExecError.amountExceedsPrecision amount)
      else
        Except.ok (strToNat ((splitOnChar '.' amount).getD 0 "" ++
          padEnd ((splitOnChar '.' amount).getD 1 "") p '0'))) := by
    simp only [validateAmount, hfmt, Bool.not_true, Bool.false_eq_true,
      if_false]
  rcases Nat.lt_or_ge p ((splitOnChar '.' amount).getD 1 "").length with
    hlt | hge
  · have herr : validateAmount amount p
        = .error (.amountExceedsPrecision amount) := by
      rw [hunfold, if_pos hlt]
    constructor
    · rw [herr]
      constructor
      · intro h
        exact absurd h Bool.false_ne_true
      · intro h
        exact absurd h (by omega)
    · intro n hn
      rw [herr] at hn
      exact absurd hn (by simp)
  · have hok : validateAmount amount p
        = .ok (strToNat ((splitOnChar '.' amount).getD 0 "" ++
          padEnd ((splitOnChar '.' amount).getD 1 "") p '0')) := by
      rw [hunfold, if_neg (by omega)]
    constructor
    · rw [hok]
      constructor
      · intro _
        omega
      · intro _
        rfl
    · intro n hn
      rw [hok] at hn
      have hn2 := Except.ok.inj hn
      rw [← hn2]
      exact hval _ _ (by omega)

/-- C6 witness: the amount 1000 at precision 2 converts to 100000, which
matches the padding arithmetic, and an amount with a three-digit tail at
precision 2 is rejected. -/
theorem c6_witness :
    (validateAmount "1000" 2).isOk = true ∧
    validateAmount "1000" 2 = .ok 100000 ∧
    100000 = strToNat "1000" * 10 ^ 2 + strToNat "" * 10 ^ 2 ∧
    (validateAmount "12.345" 2).isOk = false := by
  refine ⟨?_, ?_, ?_, ?_⟩
  · exact ((c6_amount_conversion "1000" 2 (by decide) (by decide)).1).mpr
      (by decide)
  · decide
  · exact (c6_amount_conversion "1000" 2 (by decide) (by decide)).2 100000
      (by decide)
  · by_contra hc
    simp only [Bool.not_eq_false] at hc
    have h2 := ((c6_amount_conversion "12.345" 2 (by decide)
      (by decide)).1).mp hc
    revert h2
    decide

/-- C10 counterexample: with the source balance key absent, the balance of
the asset is zero, which is at least the transfer amount zero, yet a
self-transfer of the amount zero fails instead of succeeding: the source
requires a stored balance entry, never treating an absent key as a zero
balance here. -/
theorem c10_counterexample_absent_balance_self_transfer_fails :
    balAt stAssetAcct (balanceKey "usd#root" "alice@root") = 0 ∧
    validateAmount "0" 0 = .ok 0 ∧
    execute stAssetAcct 1
        (.transferAsset "usd#root" "alice@root" "alice@root" "0")
        "alice@root"
      = .error (.noBalance "alice@root" "usd#root") := by
  decide

end Miniroha
